import Mathlib

/-!
Verification of the Flickr archive extractor against its specification.

The Python source (flickr_archive_extractor.py) is shallowly embedded below.
Python dictionaries are modelled as association lists, Python strings as
Lean strings (with character-level helpers where Python splits strings),
and the stateful upload pipeline as explicit state passing with a fuel
parameter for the retry loops.
-/

namespace Flickr

/-! ## Character-level string helpers

Python `s.split('/')` and `int(s)` are modelled on `List Char`
(`String.data`) so that every definition reduces inside the kernel. -/

/-- Python `s.split('/')` on the character list of a string: splits at every
slash, keeping empty components. -/
def pySplitSlash : List Char → List (List Char)
  | [] => [[]]
  | c :: rest =>
    if c = '/' then [] :: pySplitSlash rest
    else
      match pySplitSlash rest with
      | [] => [[c]]
      | h :: t => (c :: h) :: t

/-- The characters after the last slash of a string (the basename). -/
def lastComponent (cs : List Char) : List Char :=
  (cs.reverse.takeWhile (fun c => c != '/')).reverse

/-- Python `bool(re.match(r'^\d+$', s))`: the string is nonempty and made of
decimal digits only. -/
def isDigits (s : String) : Bool :=
  !s.data.isEmpty && s.data.all (fun c => c.isDigit)

/-- Python `int(s)` on a decimal digit string. -/
def pyToNat (s : String) : Nat :=
  s.data.foldl (fun n c => n * 10 + (c.toNat - 48)) 0

theorem pySplitSlash_ne_nil (cs : List Char) : pySplitSlash cs ≠ [] := by
  cases cs with
  | nil => simp [pySplitSlash]
  | cons c rest =>
    simp only [pySplitSlash]
    split
    · simp
    · split <;> simp

theorem pySplitSlash_no_slash (cs : List Char) (h : '/' ∉ cs) :
    pySplitSlash cs = [cs] := by
  induction cs with
  | nil => rfl
  | cons c rest ih =>
    have hc : ¬ c = '/' := fun hc => h (hc ▸ List.mem_cons_self c rest)
    have hr : '/' ∉ rest := fun hm => h (List.mem_cons_of_mem _ hm)
    simp only [pySplitSlash, if_neg hc, ih hr]

theorem pySplitSlash_singleton (cs l : List Char)
    (he : pySplitSlash cs = [l]) : l = cs ∧ '/' ∉ cs := by
  induction cs generalizing l with
  | nil =>
    simp only [pySplitSlash] at he
    exact ⟨(List.cons.injEq .. ▸ he).1.symm ▸ rfl, by simp⟩
  | cons c rest ih =>
    simp only [pySplitSlash] at he
    by_cases hc : c = '/'
    · rw [if_pos hc] at he
      cases hP : pySplitSlash rest with
      | nil => exact absurd hP (pySplitSlash_ne_nil rest)
      | cons h t => rw [hP] at he; simp at he
    · rw [if_neg hc] at he
      cases hP : pySplitSlash rest with
      | nil => exact absurd hP (pySplitSlash_ne_nil rest)
      | cons h t =>
        rw [hP] at he
        have ht : t = [] := by
          cases t with
          | nil => rfl
          | cons a b => simp at he
        subst ht
        have hl : l = c :: h := by simpa using he.symm
        obtain ⟨rfl, hns⟩ := ih h (by rw [hP])
        refine ⟨hl, ?_⟩
        intro hm
        rcases List.mem_cons.mp hm with h1 | h2
        · exact hc h1.symm
        · exact hns h2

theorem takeWhile_eq_self_of {α : Type} (p : α → Bool) (l : List α)
    (h : ∀ a ∈ l, p a = true) : l.takeWhile p = l := by
  induction l with
  | nil => rfl
  | cons a rest ih =>
    rw [List.takeWhile_cons, h a (List.mem_cons_self a rest)]
    simp [ih fun b hb => h b (List.mem_cons_of_mem _ hb)]

theorem lastComponent_nil : lastComponent [] = [] := rfl

theorem lastComponent_no_slash (cs : List Char) (h : '/' ∉ cs) :
    lastComponent cs = cs := by
  unfold lastComponent
  rw [takeWhile_eq_self_of _ _ ?_, List.reverse_reverse]
  intro a ha
  have : a ∈ cs := List.mem_reverse.mp ha
  have hne : a ≠ '/' := fun he => h (he ▸ this)
  simp [hne]

theorem lastComponent_slash_cons (rest : List Char) :
    lastComponent ('/' :: rest) = lastComponent rest := by
  unfold lastComponent
  rw [List.reverse_cons, List.takeWhile_append]
  split
  · next hlen =>
    have hself : rest.reverse.takeWhile (fun c => c != '/') = rest.reverse :=
      (List.takeWhile_prefix _).eq_of_length hlen
    simp [hself]
  · rfl

theorem lastComponent_cons_of_slash_mem (c : Char) (rest : List Char)
    (hm : '/' ∈ rest) : lastComponent (c :: rest) = lastComponent rest := by
  unfold lastComponent
  rw [List.reverse_cons, List.takeWhile_append]
  split
  · next hlen =>
    exfalso
    have hself : rest.reverse.takeWhile (fun c => c != '/') = rest.reverse :=
      (List.takeWhile_prefix _).eq_of_length hlen
    have : ('/' : Char) ∈ rest.reverse.takeWhile (fun c => c != '/') := by
      rw [hself]; exact List.mem_reverse.mpr hm
    have := List.mem_takeWhile_imp this
    simp at this
  · rfl

theorem pySplitSlash_getLastD (cs : List Char) :
    (pySplitSlash cs).getLastD [] = lastComponent cs := by
  induction cs with
  | nil => rfl
  | cons c rest ih =>
    by_cases hc : c = '/'
    · subst hc
      have hstep : pySplitSlash ('/' :: rest) = [] :: pySplitSlash rest := by
        simp [pySplitSlash]
      rw [hstep, List.getLastD_cons, ih, lastComponent_slash_cons]
    · simp only [pySplitSlash, if_neg hc]
      cases hP : pySplitSlash rest with
      | nil => exact absurd hP (pySplitSlash_ne_nil rest)
      | cons h t =>
        cases t with
        | nil =>
          obtain ⟨heq, hns⟩ := pySplitSlash_singleton rest h hP
          have hnone : '/' ∉ c :: rest := by
            intro hm
            rcases List.mem_cons.mp hm with h1 | h2
            · exact hc h1.symm
            · exact hns h2
          rw [lastComponent_no_slash _ hnone]
          simp [heq]
        | cons h2 t2 =>
          have hmem : '/' ∈ rest := by
            by_contra hno
            rw [pySplitSlash_no_slash rest hno] at hP
            simp at hP
          rw [lastComponent_cons_of_slash_mem c rest hmem, ← ih, hP]
          simp [List.getLastD_cons]

/-! ## Data model (source lines 266-285) -/

/-- A reference to an entry inside one of the zip containers. -/
structure ArchiveFile where
  archive_id : Nat
  path : String
deriving DecidableEq

/-- A media file discovered in a container (namedtuple `Item`). -/
structure Item where
  id : Nat
  uid : Nat
  file : ArchiveFile
  name : String
  type : String
deriving DecidableEq

/-- Parsed per-photo JSON metadata (namedtuple `ItemMetadata`; the raw
document is not needed by any claim and is omitted). -/
structure ItemMetadata where
  id : Nat
  original_name : String
  albums : List String
  page_url : String
deriving DecidableEq

/-- `ItemMetadata.is_unprocessed_video` (source lines 283-285):
`self.original_name.split('/')[-1] == 'video_encoding.jpg'`. -/
def ItemMetadata.is_unprocessed_video (m : ItemMetadata) : Bool :=
  (pySplitSlash m.original_name.data).getLastD [] == "video_encoding.jpg".data

/-- Claim C10: a metadata record is flagged as an unprocessed-video
placeholder if and only if the final slash-separated component of its
recorded original filename equals the sentinel "video_encoding.jpg"; a name
whose basename is the sentinel is flagged even with a directory prefix,
while a name merely containing the sentinel elsewhere is not. -/
theorem c10_unprocessed_video_sentinel :
    (∀ m : ItemMetadata,
      m.is_unprocessed_video
        = (lastComponent m.original_name.data == "video_encoding.jpg".data))
    ∧ (ItemMetadata.mk 1 "zips/data/video_encoding.jpg" [] "u").is_unprocessed_video = true
    ∧ (ItemMetadata.mk 2 "video_encoding.jpg" [] "u").is_unprocessed_video = true
    ∧ (ItemMetadata.mk 3 "my_video_encoding.jpg" [] "u").is_unprocessed_video = false
    ∧ (ItemMetadata.mk 4 "video_encoding.jpg/frame0" [] "u").is_unprocessed_video = false := by
  refine ⟨fun m => ?_, by decide, by decide, by decide, by decide⟩
  rw [ItemMetadata.is_unprocessed_video, pySplitSlash_getLastD]

/-! ## Reconciliation post-process: derived sets (source lines 133-153)

The item and metadata dictionaries are modelled as association lists
(`Nat` id keys); Python dictionaries never hold two entries with the same
key, and the derived-set comprehensions are modelled entry by entry. -/

abbrev ItemIndex := List (Nat × Item)

abbrev MetaIndex := List (Nat × ItemMetadata)

/-- The keys of an association list (Python `dict.keys()`). -/
def keysOf {α : Type} (l : List (Nat × α)) : List Nat := l.map Prod.fst

/-- `self.matched`: one entry per id present in both indices, pairing the
item and its metadata (`ItemWithMetadata`). -/
def matchedPairs (items : ItemIndex) (meta : MetaIndex) :
    List (Nat × Item × ItemMetadata) :=
  items.filterMap fun p => (meta.lookup p.1).map fun m => (p.1, p.2, m)

/-- `matched_uid`: the uids of the items whose id matched some metadata. -/
def matchedUids (items : ItemIndex) (meta : MetaIndex) : List Nat :=
  (matchedPairs items meta).map fun p => p.2.1.uid

/-- `self.without_metadata`: items whose id has no metadata and whose uid
has no matched counterpart. -/
def without_metadata (items : ItemIndex) (meta : MetaIndex) : ItemIndex :=
  items.filter fun p =>
    (meta.lookup p.1).isNone && !((matchedUids items meta).contains p.2.uid)

/-- `self.unprocessed_videos_metadata`: metadata flagged as unprocessed
video placeholders. -/
def unprocessed_videos_metadata (meta : MetaIndex) : MetaIndex :=
  meta.filter fun p => p.2.is_unprocessed_video

/-- `self.without_items`: metadata ids with no item and not flagged as
unprocessed video. -/
def without_items (items : ItemIndex) (meta : MetaIndex) : MetaIndex :=
  meta.filter fun p => (items.lookup p.1).isNone && !p.2.is_unprocessed_video

theorem lookup_isSome_iff {α : Type} (l : List (Nat × α)) (k : Nat) :
    (List.lookup k l).isSome = true ↔ k ∈ keysOf l := by
  induction l with
  | nil => simp [keysOf, List.lookup]
  | cons p rest ih =>
    cases p with
    | mk a b =>
      by_cases hk : k = a
      · subst hk
        simp [List.lookup, keysOf]
      · have hbeq : (k == a) = false := by simp [hk]
        simp [List.lookup, hbeq, keysOf, hk, ← ih]

theorem lookup_eq_none_iff_nmem {α : Type} (l : List (Nat × α)) (k : Nat) :
    List.lookup k l = none ↔ k ∉ keysOf l := by
  rw [← lookup_isSome_iff]
  cases h : List.lookup k l <;> simp [h]

/-- Claim C1: `matched` is exactly the id-keyed intersection of items and
metadata; `without_metadata` holds exactly the items with no metadata for
their id and no matched sibling for their uid; `without_items` holds
exactly the metadata ids with no item that are not unprocessed-video
placeholders; and `matched` is disjoint from both. -/
theorem c1_reconciliation_sets (items : ItemIndex) (meta : MetaIndex) :
    (∀ k, k ∈ keysOf (matchedPairs items meta) ↔ (k ∈ keysOf items ∧ k ∈ keysOf meta))
    ∧ (∀ k it, (k, it) ∈ without_metadata items meta ↔
        ((k, it) ∈ items ∧ List.lookup k meta = none ∧ it.uid ∉ matchedUids items meta))
    ∧ (∀ k m, (k, m) ∈ without_items items meta ↔
        ((k, m) ∈ meta ∧ List.lookup k items = none ∧ m.is_unprocessed_video = false))
    ∧ (keysOf (matchedPairs items meta)).inter (keysOf (without_metadata items meta)) = []
    ∧ (keysOf (matchedPairs items meta)).inter (keysOf (without_items items meta)) = [] := by
  have hmatched : ∀ k, k ∈ keysOf (matchedPairs items meta) ↔
      (k ∈ keysOf items ∧ (List.lookup k meta).isSome = true) := by
    intro k
    constructor
    · intro hk
      obtain ⟨trip, htrip, hfst⟩ := List.mem_map.mp hk
      obtain ⟨p, hp, hsome⟩ := List.mem_filterMap.mp htrip
      obtain ⟨m, hm, heq⟩ := Option.map_eq_some'.mp hsome
      have hpk : p.1 = k := by rw [← hfst, ← heq]
      subst hpk
      exact ⟨List.mem_map.mpr ⟨p, hp, rfl⟩, by rw [hm]; rfl⟩
    · rintro ⟨hki, hkm⟩
      obtain ⟨p, hp, hpk⟩ := List.mem_map.mp hki
      obtain ⟨m, hm⟩ := Option.isSome_iff_exists.mp hkm
      refine List.mem_map.mpr ⟨(p.1, p.2, m), List.mem_filterMap.mpr ⟨p, hp, ?_⟩, hpk⟩
      rw [hpk, hm]
      rfl
  have hwm : ∀ k it, (k, it) ∈ without_metadata items meta ↔
      ((k, it) ∈ items ∧ List.lookup k meta = none ∧ it.uid ∉ matchedUids items meta) := by
    intro k it
    rw [without_metadata, List.mem_filter]
    simp only [Bool.and_eq_true, Option.isNone_iff_eq_none, Bool.not_eq_true,
      List.contains, and_assoc]
    constructor
    · rintro ⟨h1, h2, h3⟩
      refine ⟨h1, h2, fun hmem => ?_⟩
      rw [List.elem_iff.mpr hmem] at h3
      simp at h3
    · rintro ⟨h1, h2, h3⟩
      refine ⟨h1, h2, ?_⟩
      cases he : List.elem it.uid (matchedUids items meta) with
      | false => rfl
      | true => exact absurd (List.elem_iff.mp he) h3
  have hwi : ∀ k m, (k, m) ∈ without_items items meta ↔
      ((k, m) ∈ meta ∧ List.lookup k items = none ∧ m.is_unprocessed_video = false) := by
    intro k m
    rw [without_items, List.mem_filter]
    simp only [Bool.and_eq_true, Option.isNone_iff_eq_none, Bool.not_eq_true,
      Bool.not_eq_true', and_assoc]
  refine ⟨fun k => (hmatched k).trans (and_congr_right fun _ => lookup_isSome_iff meta k),
    hwm, hwi, ?_, ?_⟩
  · rw [List.eq_nil_iff_forall_not_mem]
    intro k hk
    obtain ⟨h1, h2⟩ := List.mem_inter_iff.mp hk
    have hsome := ((hmatched k).mp h1).2
    obtain ⟨p, hp, hpk⟩ := List.mem_map.mp h2
    have := ((hwm p.1 p.2).mp (by rwa [Prod.mk.eta])).2.1
    rw [hpk] at this
    rw [this] at hsome
    exact Bool.false_ne_true hsome
  · rw [List.eq_nil_iff_forall_not_mem]
    intro k hk
    obtain ⟨h1, h2⟩ := List.mem_inter_iff.mp hk
    have hki : k ∈ keysOf items := ((hmatched k).mp h1).1
    have hsome := (lookup_isSome_iff items k).mpr hki
    obtain ⟨p, hp, hpk⟩ := List.mem_map.mp h2
    have := ((hwi p.1 p.2).mp (by rwa [Prod.mk.eta])).2.1
    rw [hpk] at this
    rw [this] at hsome
    exact Bool.false_ne_true hsome

/-! ## Media-original classification (source lines 209-250) -/

/-- The named capture groups of a successful media-original regex match:
`name`, `id` (a digit string, guaranteed by the patterns) and `ext`. -/
structure ItemMatch where
  name : String
  idStr : String
  ext : String
deriving DecidableEq

/-- `FlickrArchive._process_item_original_file` (source lines 240-250):
builds the main candidate item and, when the captured name is purely
numeric, a second candidate with id and name swapped sharing the uid and
the backing file. -/
def process_item_original_file (file : ArchiveFile) (m : ItemMatch) (uid : Nat) :
    String × Item × Option Item :=
  let item_type := m.ext
  let item_id := pyToNat m.idStr
  let name := m.name
  let main_item : Item := ⟨item_id, uid, file, name, item_type⟩
  let alt_item : Option Item :=
    if isDigits name then
      some ⟨pyToNat name, uid, file, toString item_id, item_type⟩
    else none
  (item_type, main_item, alt_item)

/-- Insertion of the candidate item(s) into the item index with
first-write-wins per id (source lines 216-221; the duplicate-id warning is
a log line and is modelled as a plain drop). -/
def registerItems (items : ItemIndex) (main_res : Item) (alt_res : Option Item) :
    ItemIndex :=
  let items1 := if (List.lookup main_res.id items).isSome then items
    else items ++ [(main_res.id, main_res)]
  match alt_res with
  | none => items1
  | some alt =>
      if (List.lookup alt.id items1).isSome then items1
      else items1 ++ [(alt.id, alt)]

theorem lookup_single {κ α : Type} [BEq κ] [LawfulBEq κ] [DecidableEq κ] (k a : κ) (v : α) :
    List.lookup k [(a, v)] = if k = a then some v else none := by
  by_cases h : k = a
  · rw [if_pos h, h]
    simp [List.lookup]
  · have hb : (k == a) = false := by simp [h]
    simp [List.lookup, hb, h]

theorem registerItems_lookup (items : ItemIndex) (main_res alt : Item) (k : Nat) :
    List.lookup k (registerItems items main_res (some alt)) =
      match List.lookup k items with
      | some v => some v
      | none =>
        if k = main_res.id then some main_res
        else if k = alt.id then some alt
        else none := by
  unfold registerItems
  cases hk : List.lookup k items with
  | some v =>
    have happ : ∀ l2, List.lookup k (items ++ l2) = some v := fun l2 => by
      rw [List.lookup_append, hk]; rfl
    have happ2 : ∀ l2 l3, List.lookup k ((items ++ l2) ++ l3) = some v := fun l2 l3 => by
      rw [List.append_assoc]; exact happ _
    by_cases h1 : (List.lookup main_res.id items).isSome = true
    · simp only [if_pos h1]
      split
      · rw [hk]
      · rw [happ _]
    · simp only [if_neg h1]
      split
      · rw [happ _]
      · rw [happ2 _ _]
  | none =>
    by_cases hkm : k = main_res.id
    · have h1 : List.lookup main_res.id items = none := by rw [← hkm]; exact hk
      have h1f : ¬ (List.lookup main_res.id items).isSome = true := by rw [h1]; simp
      simp only [if_neg h1f]
      have hfind : List.lookup k (items ++ [(main_res.id, main_res)]) = some main_res := by
        rw [List.lookup_append, hk, lookup_single, if_pos hkm]
        rfl
      split
      · rw [hfind]
      · rw [List.lookup_append, hfind]
        simp [hkm, Option.or]
    · by_cases hka : k = alt.id
      · by_cases h1 : (List.lookup main_res.id items).isSome = true
        · simp only [if_pos h1]
          split
          · next halt =>
            rw [← hka, hk] at halt
            simp at halt
          · rw [List.lookup_append, hk, lookup_single, if_pos hka]
            simp [hkm, hka, Option.or]
        · simp only [if_neg h1]
          have hk1 : List.lookup k (items ++ [(main_res.id, main_res)]) = none := by
            rw [List.lookup_append, hk, lookup_single, if_neg hkm]
            rfl
          split
          · next halt =>
            rw [← hka, hk1] at halt
            simp at halt
          · rw [List.lookup_append, hk1, lookup_single, if_pos hka]
            simp [hkm, Option.or]
      · by_cases h1 : (List.lookup main_res.id items).isSome = true
        · simp only [if_pos h1]
          split
          · rw [hk]
          · rw [List.lookup_append, hk, lookup_single, if_neg hka]
            simp [hkm, hka, Option.or]
        · simp only [if_neg h1]
          have hk1 : List.lookup k (items ++ [(main_res.id, main_res)]) = none := by
            rw [List.lookup_append, hk, lookup_single, if_neg hkm]
            rfl
          split
          · rw [hk1]
          · rw [List.lookup_append, hk1, lookup_single, if_neg hka]
            simp [hkm, hka, Option.or]

theorem registerItems_main_mem (items : ItemIndex) (main_res alt : Item)
    (h1 : List.lookup main_res.id items = none) :
    (main_res.id, main_res) ∈ registerItems items main_res (some alt) := by
  unfold registerItems
  have h1f : ¬ (List.lookup main_res.id items).isSome = true := by rw [h1]; simp
  simp only [if_neg h1f]
  split
  · exact List.mem_append_right _ (List.mem_singleton.mpr rfl)
  · exact List.mem_append_left _ (List.mem_append_right _ (List.mem_singleton.mpr rfl))

theorem registerItems_alt_mem (items : ItemIndex) (main_res alt : Item)
    (h1 : List.lookup main_res.id items = none)
    (h2 : List.lookup alt.id items = none) (hne : alt.id ≠ main_res.id) :
    (alt.id, alt) ∈ registerItems items main_res (some alt) := by
  unfold registerItems
  have h1f : ¬ (List.lookup main_res.id items).isSome = true := by rw [h1]; simp
  simp only [if_neg h1f]
  have hk1 : List.lookup alt.id (items ++ [(main_res.id, main_res)]) = none := by
    rw [List.lookup_append, h2]
    have : (alt.id == main_res.id) = false := by simp [hne]
    simp [List.lookup, this]
  have hk1f : ¬ (List.lookup alt.id (items ++ [(main_res.id, main_res)])).isSome = true := by
    rw [hk1]; simp
  simp only [if_neg hk1f]
  exact List.mem_append_right _ (List.mem_singleton.mpr rfl)

theorem mem_matchedUids_of_mem (items : ItemIndex) (meta : MetaIndex)
    (k : Nat) (it : Item) (hmem : (k, it) ∈ items)
    (hks : (List.lookup k meta).isSome = true) :
    it.uid ∈ matchedUids items meta := by
  obtain ⟨m, hm⟩ := Option.isSome_iff_exists.mp hks
  refine List.mem_map.mpr ⟨(k, it, m), List.mem_filterMap.mpr ⟨(k, it), hmem, ?_⟩, rfl⟩
  rw [hm]
  rfl

/-! ### Claim C7: concrete scenario and general statement -/

/-- Backing file of the ambiguous match `123_456_o.jpg`. -/
def c7file : ArchiveFile := ⟨1, "123_456_o.jpg"⟩

/-- Capture groups of `123_456_o.jpg` under the first media pattern. -/
def c7match : ItemMatch := ⟨"123", "456", "jpg"⟩

/-- A distinct earlier item that already occupies id 456. -/
def c7itemA : Item := ⟨456, 0, ⟨0, "cat_456_o.jpg"⟩, "cat", "jpg"⟩

/-- Item index before the ambiguous match is registered. -/
def c7items : ItemIndex := [(456, c7itemA)]

/-- Metadata index holding id 456 (one of the two candidate ids). -/
def c7meta : MetaIndex := [(456, ⟨456, "cat.jpg", [], "u"⟩)]

/-- Claim C7 counterexample: the match on `123_456_o.jpg` (uid 1) is
ambiguous and id 456 is present in the metadata index, yet because id 456
was already taken by a different item, the alternate candidate (id 123,
uid 1) still ends up in `without_metadata`: an item carrying the uid of
this match does appear there. -/
theorem c7_counterexample :
    isDigits c7match.name = true
    ∧ (List.lookup (process_item_original_file c7file c7match 1).2.1.id c7meta).isSome = true
    ∧ ¬ (∀ p ∈ without_metadata
          (registerItems c7items (process_item_original_file c7file c7match 1).2.1
            ((process_item_original_file c7file c7match 1).2.2)) c7meta,
          p.2.uid ≠ 1) := by
  refine ⟨by decide, by decide, fun h => ?_⟩
  exact h (123, ⟨123, 1, c7file, "456", "jpg"⟩) (by decide) rfl

/-- Claim C7 (amended): a media match whose captured name is purely numeric
yields exactly two candidate items sharing one uid, with id and name
swapped and the same backing file, each inserted under first-write-wins
per id; and provided neither candidate id is already occupied in the item
index, the presence of either id in the metadata index guarantees that no
item carrying that uid appears in `without_metadata`. -/
theorem c7_ambiguous_numeric_name (file : ArchiveFile) (name idStr ext : String)
    (uid : Nat) (items : ItemIndex) (meta : MetaIndex)
    (hname : isDigits name = true) :
    process_item_original_file file ⟨name, idStr, ext⟩ uid =
      (ext, ⟨pyToNat idStr, uid, file, name, ext⟩,
        some ⟨pyToNat name, uid, file, toString (pyToNat idStr), ext⟩)
    ∧ (∀ k, List.lookup k (registerItems items ⟨pyToNat idStr, uid, file, name, ext⟩
          (some ⟨pyToNat name, uid, file, toString (pyToNat idStr), ext⟩)) =
        match List.lookup k items with
        | some v => some v
        | none =>
          if k = pyToNat idStr then some ⟨pyToNat idStr, uid, file, name, ext⟩
          else if k = pyToNat name then
            some ⟨pyToNat name, uid, file, toString (pyToNat idStr), ext⟩
          else none)
    ∧ (List.lookup (pyToNat idStr) items = none →
        List.lookup (pyToNat name) items = none →
        ((List.lookup (pyToNat idStr) meta).isSome = true
          ∨ (List.lookup (pyToNat name) meta).isSome = true) →
        ∀ p ∈ without_metadata
            (registerItems items ⟨pyToNat idStr, uid, file, name, ext⟩
              (some ⟨pyToNat name, uid, file, toString (pyToNat idStr), ext⟩)) meta,
          p.2.uid ≠ uid) := by
  refine ⟨by simp [process_item_original_file, hname], ?_, ?_⟩
  · intro k
    exact registerItems_lookup items ⟨pyToNat idStr, uid, file, name, ext⟩
      ⟨pyToNat name, uid, file, toString (pyToNat idStr), ext⟩ k
  · intro h1 h2 hdisj p hp
    intro hequ
    have huid : uid ∈ matchedUids
        (registerItems items ⟨pyToNat idStr, uid, file, name, ext⟩
          (some ⟨pyToNat name, uid, file, toString (pyToNat idStr), ext⟩)) meta := by
      rcases hdisj with hs | hs
      · have hm := registerItems_main_mem items ⟨pyToNat idStr, uid, file, name, ext⟩
          ⟨pyToNat name, uid, file, toString (pyToNat idStr), ext⟩ h1
        exact mem_matchedUids_of_mem _ meta _ _ hm hs
      · by_cases heq : pyToNat name = pyToNat idStr
        · rw [heq] at hs
          have hm := registerItems_main_mem items ⟨pyToNat idStr, uid, file, name, ext⟩
            ⟨pyToNat name, uid, file, toString (pyToNat idStr), ext⟩ h1
          exact mem_matchedUids_of_mem _ meta _ _ hm hs
        · have hm := registerItems_alt_mem items ⟨pyToNat idStr, uid, file, name, ext⟩
            ⟨pyToNat name, uid, file, toString (pyToNat idStr), ext⟩ h1 h2 heq
          exact mem_matchedUids_of_mem _ meta _ _ hm hs
    rcases List.mem_filter.mp hp with ⟨hpmem, hcond⟩
    rw [Bool.and_eq_true] at hcond
    have hnc := hcond.2
    rw [Bool.not_eq_true'] at hnc
    rw [List.contains, hequ, List.elem_iff.mpr huid] at hnc
    simp at hnc

/-- Instantiation of the amended claim C7 at a concrete fresh index. -/
theorem c7_witness :
    List.lookup (pyToNat "7") (registerItems [] ⟨pyToNat "9", 3, ⟨0, "f"⟩, "7", "jpg"⟩
      (some ⟨pyToNat "7", 3, ⟨0, "f"⟩, toString (pyToNat "9"), "jpg"⟩))
      = some ⟨pyToNat "7", 3, ⟨0, "f"⟩, toString (pyToNat "9"), "jpg"⟩ := by
  have h := c7_ambiguous_numeric_name ⟨0, "f"⟩ "7" "9" "jpg" 3 []
    [(9, ⟨9, "o.jpg", [], "u"⟩)] (by decide)
  rw [h.2.1 (pyToNat "7")]
  decide

/-! ## Albums post-process (source lines 155-190) -/

/-- One parsed entry of the albums manifest. -/
structure AlbumJson where
  id : String
  title : String
  url : String
  created : Int
  last_updated : Int
  photos : List String
deriving DecidableEq

/-- namedtuple `Album` (source line 278). -/
structure Album where
  id : String
  title : String
  description : String
  url : String
  created : Int
  updated : Int
  items_ids : List Nat
deriving DecidableEq

/-- The five possible fates of one album photo id. -/
inductive PidClass
  | dropped
  | wrong
  | unprocessedVideo
  | missing
  | member
deriving DecidableEq

/-- The branch taken by the body of the album photo loop (source lines
160-175) for one photo id, given the matched ids and the ids of the
unprocessed-video metadata. -/
def classifyPid (matchedKeys unprocessedKeys : List Nat) (pid : String) : PidClass :=
  if pid = "0" then .dropped
  else if !(isDigits pid) then .wrong
  else if unprocessedKeys.contains (pyToNat pid) then .unprocessedVideo
  else if !(matchedKeys.contains (pyToNat pid)) then .missing
  else .member

/-- Accumulator of the album photo loop. -/
structure AlbumScan where
  wrong : List (String × String)
  missed : List (String × Nat)
  index : List (Nat × List String)
  members : List Nat
deriving DecidableEq

/-- `self.item_to_albums_index[pid_int].append(album_id)` with lazy entry
creation (source lines 172-174). -/
def indexAdd (index : List (Nat × List String)) (pid : Nat) (aid : String) :
    List (Nat × List String) :=
  if (List.lookup pid index).isSome then
    index.map fun e => if e.1 = pid then (e.1, e.2 ++ [aid]) else e
  else index ++ [(pid, [aid])]

/-- Body of the album photo loop (source lines 160-175). -/
def processPid (matchedKeys unprocessedKeys : List Nat) (albumId : String)
    (st : AlbumScan) (pid : String) : AlbumScan :=
  if pid = "0" then st
  else if !(isDigits pid) then { st with wrong := st.wrong ++ [(albumId, pid)] }
  else
    if unprocessedKeys.contains (pyToNat pid) then st
    else if !(matchedKeys.contains (pyToNat pid)) then
      { st with missed := st.missed ++ [(albumId, pyToNat pid)] }
    else
      { st with index := indexAdd st.index (pyToNat pid) albumId,
                members := st.members ++ [pyToNat pid] }

/-- The full album photo loop. -/
def processPhotos (matchedKeys unprocessedKeys : List Nat) (albumId : String)
    (photos : List String) (st : AlbumScan) : AlbumScan :=
  photos.foldl (processPid matchedKeys unprocessedKeys albumId) st

/-- State accumulated across the manifest entries. -/
structure PostState where
  albums : List (String × Album)
  wrong : List (String × String)
  missed : List (String × Nat)
  index : List (Nat × List String)
deriving DecidableEq

/-- Processing of one entry of the albums manifest (source lines 157-188),
including the duplicate-album-id check that discards the later
definition (the photo loop has already run by then). -/
def processAlbum (matchedKeys unprocessedKeys : List Nat) (desc : String)
    (st : PostState) (aj : AlbumJson) : PostState :=
  let scan := processPhotos matchedKeys unprocessedKeys aj.id aj.photos
    ⟨st.wrong, st.missed, st.index, []⟩
  let album : Album :=
    ⟨aj.id, aj.title, desc, aj.url, aj.created, aj.last_updated, scan.members⟩
  { albums := if (List.lookup aj.id st.albums).isSome then st.albums
      else st.albums ++ [(aj.id, album)],
    wrong := scan.wrong, missed := scan.missed, index := scan.index }

/-- Processing of the whole albums manifest from the empty state. -/
def processAlbums (matchedKeys unprocessedKeys : List Nat) (desc : String)
    (ajs : List AlbumJson) : PostState :=
  ajs.foldl (processAlbum matchedKeys unprocessedKeys desc) ⟨[], [], [], []⟩

/-- `self.items_without_albums` (source line 190). -/
def items_without_albums (matchedKeys : List Nat)
    (index : List (Nat × List String)) : List Nat :=
  matchedKeys.filter fun k => (List.lookup k index).isNone

/-- The album-id list held by the index for an item id (empty if absent). -/
def lookupList (index : List (Nat × List String)) (k : Nat) : List String :=
  (List.lookup k index).getD []

/-- The member pids of a photo list (with multiplicity, in order). -/
def memberPids (m u : List Nat) (photos : List String) : List Nat :=
  (photos.filter fun pid => decide (classifyPid m u pid = .member)).map pyToNat

/-- The malformed pids of a photo list. -/
def wrongPids (m u : List Nat) (photos : List String) : List String :=
  photos.filter fun pid => decide (classifyPid m u pid = .wrong)

/-- The missing pids of a photo list. -/
def missedPids (m u : List Nat) (photos : List String) : List Nat :=
  (photos.filter fun pid => decide (classifyPid m u pid = .missing)).map pyToNat

/-- The `Album` record built for one manifest entry. -/
def mkAlbum (m u : List Nat) (desc : String) (aj : AlbumJson) : Album :=
  ⟨aj.id, aj.title, desc, aj.url, aj.created, aj.last_updated, memberPids m u aj.photos⟩

theorem contains_iff_mem_nat (l : List Nat) (a : Nat) : l.contains a = true ↔ a ∈ l := by
  rw [List.contains]
  exact List.elem_iff

theorem contains_false_iff_nmem_nat (l : List Nat) (a : Nat) :
    l.contains a = false ↔ a ∉ l := by
  constructor
  · intro h hm
    rw [(contains_iff_mem_nat l a).mpr hm] at h
    simp at h
  · intro h
    cases hc : l.contains a with
    | false => rfl
    | true => exact absurd ((contains_iff_mem_nat l a).mp hc) h

theorem processPid_fields (m u : List Nat) (aid : String) (st : AlbumScan) (pid : String) :
    (processPid m u aid st pid).wrong
        = st.wrong ++ (if classifyPid m u pid = .wrong then [(aid, pid)] else [])
    ∧ (processPid m u aid st pid).missed
        = st.missed ++ (if classifyPid m u pid = .missing then [(aid, pyToNat pid)] else [])
    ∧ (processPid m u aid st pid).members
        = st.members ++ (if classifyPid m u pid = .member then [pyToNat pid] else [])
    ∧ (processPid m u aid st pid).index
        = (if classifyPid m u pid = .member then indexAdd st.index (pyToNat pid) aid
           else st.index) := by
  unfold processPid classifyPid
  by_cases h0 : pid = "0"
  · simp [h0]
  · simp only [if_neg h0]
    by_cases hd : isDigits pid
    · simp only [hd, Bool.not_true, Bool.false_eq_true, if_false]
      by_cases hu : pyToNat pid ∈ u
      · have huc := (contains_iff_mem_nat u (pyToNat pid)).mpr hu
        simp [hu, huc]
      · have huc := (contains_false_iff_nmem_nat u (pyToNat pid)).mpr hu
        simp only [huc, Bool.false_eq_true, if_false, Bool.not_false, if_true, hu]
        by_cases hm : pyToNat pid ∈ m
        · have hmc := (contains_iff_mem_nat m (pyToNat pid)).mpr hm
          simp [hm, hmc]
        · have hmc := (contains_false_iff_nmem_nat m (pyToNat pid)).mpr hm
          simp [hm, hmc]
    · simp only [Bool.not_eq_true] at hd
      simp [hd]

theorem wrongPids_cons (m u : List Nat) (pid : String) (rest : List String) :
    wrongPids m u (pid :: rest)
      = (if classifyPid m u pid = .wrong then [pid] else []) ++ wrongPids m u rest := by
  unfold wrongPids
  rw [List.filter_cons]
  by_cases h : classifyPid m u pid = .wrong
  · simp [h]
  · simp [h]

theorem missedPids_cons (m u : List Nat) (pid : String) (rest : List String) :
    missedPids m u (pid :: rest)
      = (if classifyPid m u pid = .missing then [pyToNat pid] else [])
        ++ missedPids m u rest := by
  unfold missedPids
  rw [List.filter_cons]
  by_cases h : classifyPid m u pid = .missing
  · simp [h]
  · simp [h]

theorem memberPids_cons (m u : List Nat) (pid : String) (rest : List String) :
    memberPids m u (pid :: rest)
      = (if classifyPid m u pid = .member then [pyToNat pid] else [])
        ++ memberPids m u rest := by
  unfold memberPids
  rw [List.filter_cons]
  by_cases h : classifyPid m u pid = .member
  · simp [h]
  · simp [h]

theorem processPhotos_wrong (m u : List Nat) (aid : String) (photos : List String) :
    ∀ st, (processPhotos m u aid photos st).wrong
      = st.wrong ++ (wrongPids m u photos).map fun q => (aid, q) := by
  induction photos with
  | nil => intro st; simp [processPhotos, wrongPids]
  | cons pid rest ih =>
    intro st
    rw [processPhotos, List.foldl_cons, ← processPhotos, ih, wrongPids_cons,
      (processPid_fields m u aid st pid).1]
    by_cases h : classifyPid m u pid = .wrong
    · simp [h]
    · simp [h]

theorem processPhotos_missed (m u : List Nat) (aid : String) (photos : List String) :
    ∀ st, (processPhotos m u aid photos st).missed
      = st.missed ++ (missedPids m u photos).map fun n => (aid, n) := by
  induction photos with
  | nil => intro st; simp [processPhotos, missedPids]
  | cons pid rest ih =>
    intro st
    rw [processPhotos, List.foldl_cons, ← processPhotos, ih, missedPids_cons,
      (processPid_fields m u aid st pid).2.1]
    by_cases h : classifyPid m u pid = .missing
    · simp [h]
    · simp [h]

theorem processPhotos_members (m u : List Nat) (aid : String) (photos : List String) :
    ∀ st, (processPhotos m u aid photos st).members
      = st.members ++ memberPids m u photos := by
  induction photos with
  | nil => intro st; simp [processPhotos, memberPids]
  | cons pid rest ih =>
    intro st
    rw [processPhotos, List.foldl_cons, ← processPhotos, ih, memberPids_cons,
      (processPid_fields m u aid st pid).2.2.1]
    by_cases h : classifyPid m u pid = .member
    · simp [h]
    · simp [h]

theorem lookup_map_update (index : List (Nat × List String)) (p : Nat) (a : String)
    (q : Nat) :
    List.lookup q (index.map fun e => if e.1 = p then (e.1, e.2 ++ [a]) else e)
      = if q = p then (List.lookup p index).map fun l => l ++ [a]
        else List.lookup q index := by
  induction index with
  | nil =>
    simp only [List.map_nil]
    by_cases hq : q = p
    · simp [List.lookup, hq]
    · simp [List.lookup, hq]
  | cons e rest ih =>
    cases e with
    | mk a0 v0 =>
      rw [List.map_cons]
      by_cases h0 : a0 = p
      · subst h0
        rw [if_pos rfl]
        by_cases hq : q = a0
        · subst hq
          simp [List.lookup]
        · have hb : (q == a0) = false := by simp [hq]
          simp only [List.lookup, hb, ih, if_neg hq]
      · rw [if_neg h0]
        by_cases hq : q = a0
        · subst hq
          have hqp : ¬ q = p := h0
          simp [List.lookup, if_neg hqp]
        · have hb : (q == a0) = false := by simp [hq]
          have hp : (p == a0) = false := by
            have hne : ¬ p = a0 := fun he => h0 he.symm
            simp [hne]
          simp only [List.lookup, hb, ih, hp]

theorem indexAdd_lookup (index : List (Nat × List String)) (p : Nat) (a : String)
    (q : Nat) :
    List.lookup q (indexAdd index p a)
      = if q = p then some (lookupList index p ++ [a]) else List.lookup q index := by
  unfold indexAdd
  by_cases hs : (List.lookup p index).isSome = true
  · obtain ⟨v, hv⟩ := Option.isSome_iff_exists.mp hs
    rw [if_pos hs, lookup_map_update index p a q]
    by_cases hq : q = p
    · rw [if_pos hq, if_pos hq, hv, lookupList, hv]
      rfl
    · rw [if_neg hq, if_neg hq]
  · have hnone : List.lookup p index = none := by
      cases h : List.lookup p index with
      | none => rfl
      | some v => rw [h] at hs; simp at hs
    rw [if_neg hs, List.lookup_append]
    by_cases hq : q = p
    · rw [if_pos hq, hq, hnone, lookup_single, if_pos rfl, lookupList, hnone]
      rfl
    · rw [if_neg hq, lookup_single, if_neg hq]
      cases List.lookup q index <;> rfl

theorem lookupList_indexAdd (index : List (Nat × List String)) (p : Nat) (a : String)
    (q : Nat) :
    lookupList (indexAdd index p a) q
      = if q = p then lookupList index p ++ [a] else lookupList index q := by
  rw [lookupList, indexAdd_lookup]
  by_cases hq : q = p
  · rw [if_pos hq, if_pos hq]
    rfl
  · rw [if_neg hq, if_neg hq, lookupList]

theorem processPhotos_index_mem (m u : List Nat) (aid : String) (photos : List String) :
    ∀ st q b, b ∈ lookupList (processPhotos m u aid photos st).index q ↔
      (b ∈ lookupList st.index q ∨ (b = aid ∧ q ∈ memberPids m u photos)) := by
  induction photos with
  | nil => intro st q b; simp [processPhotos, memberPids]
  | cons pid rest ih =>
    intro st q b
    rw [processPhotos, List.foldl_cons, ← processPhotos, ih,
      (processPid_fields m u aid st pid).2.2.2, memberPids_cons]
    by_cases h : classifyPid m u pid = .member
    · rw [if_pos h, if_pos h, lookupList_indexAdd]
      by_cases hq : q = pyToNat pid
      · rw [if_pos hq]
        simp only [List.mem_append, List.mem_singleton, List.mem_cons, hq]
        tauto
      · rw [if_neg hq]
        simp only [List.singleton_append, List.mem_cons]
        have : ¬ q = pyToNat pid := hq
        tauto
    · rw [if_neg h, if_neg h]
      simp only [List.nil_append]

theorem processAlbum_albums (m u : List Nat) (desc : String) (st : PostState)
    (aj : AlbumJson) :
    (processAlbum m u desc st aj).albums
      = if (List.lookup aj.id st.albums).isSome then st.albums
        else st.albums ++ [(aj.id, mkAlbum m u desc aj)] := by
  unfold processAlbum mkAlbum
  simp only
  rw [processPhotos_members]
  simp

theorem processAlbums_albums_aux (m u : List Nat) (desc : String) (ajs : List AlbumJson) :
    ∀ st : PostState, (ajs.map AlbumJson.id).Nodup →
      (∀ aj ∈ ajs, List.lookup aj.id st.albums = none) →
      (List.foldl (processAlbum m u desc) st ajs).albums
        = st.albums ++ (ajs.map fun aj => (aj.id, mkAlbum m u desc aj)) := by
  induction ajs with
  | nil =>
    intro st _ _
    simp
  | cons aj rest ih =>
    intro st hnd hfr
    rw [List.map_cons] at hnd
    rw [List.foldl_cons]
    have h1 : List.lookup aj.id st.albums = none := hfr aj (List.mem_cons_self aj rest)
    have h1f : ¬ (List.lookup aj.id st.albums).isSome = true := by rw [h1]; simp
    have halb : (processAlbum m u desc st aj).albums
        = st.albums ++ [(aj.id, mkAlbum m u desc aj)] := by
      rw [processAlbum_albums, if_neg h1f]
    have hfresh : ∀ aj2 ∈ rest, List.lookup aj2.id (processAlbum m u desc st aj).albums = none := by
      intro aj2 hm2
      rw [halb, List.lookup_append, hfr aj2 (List.mem_cons_of_mem _ hm2), lookup_single]
      have hne : ¬ aj2.id = aj.id := by
        intro he
        exact (List.nodup_cons.mp hnd).1 (he ▸ List.mem_map_of_mem AlbumJson.id hm2)
      rw [if_neg hne]
      rfl
    rw [ih (processAlbum m u desc st aj) (List.nodup_cons.mp hnd).2 hfresh, halb,
      List.append_assoc]
    simp

theorem processAlbums_index_mem_all (m u : List Nat) (desc : String)
    (ajs : List AlbumJson) :
    ∀ st q b, b ∈ lookupList (List.foldl (processAlbum m u desc) st ajs).index q ↔
      (b ∈ lookupList st.index q
        ∨ ∃ aj ∈ ajs, b = aj.id ∧ q ∈ memberPids m u aj.photos) := by
  induction ajs with
  | nil =>
    intro st q b
    simp
  | cons aj rest ih =>
    intro st q b
    rw [List.foldl_cons, ih]
    have hidx : (processAlbum m u desc st aj).index
        = (processPhotos m u aj.id aj.photos ⟨st.wrong, st.missed, st.index, []⟩).index := rfl
    rw [hidx, processPhotos_index_mem]
    have hsti : lookupList (⟨st.wrong, st.missed, st.index, []⟩ : AlbumScan).index q
        = lookupList st.index q := rfl
    rw [hsti]
    constructor
    · rintro (h | hrest)
      · rcases h with h | ⟨rfl, hq⟩
        · exact Or.inl h
        · exact Or.inr ⟨aj, List.mem_cons_self aj rest, rfl, hq⟩
      · obtain ⟨aj2, hm2, hb, hq⟩ := hrest
        exact Or.inr ⟨aj2, List.mem_cons_of_mem _ hm2, hb, hq⟩
    · rintro (h | ⟨aj2, hm2, hb, hq⟩)
      · exact Or.inl (Or.inl h)
      · rcases List.mem_cons.mp hm2 with rfl | hm2
        · exact Or.inl (Or.inr ⟨hb, hq⟩)
        · exact Or.inr ⟨aj2, hm2, hb, hq⟩

/-- Index entries always hold at least one album id. -/
def valuesNonempty (index : List (Nat × List String)) : Prop :=
  ∀ e ∈ index, e.2 ≠ []

theorem indexAdd_valuesNonempty (index : List (Nat × List String)) (p : Nat) (a : String)
    (h : valuesNonempty index) : valuesNonempty (indexAdd index p a) := by
  unfold indexAdd
  split
  · intro e he
    obtain ⟨e0, he0, heq⟩ := List.mem_map.mp he
    by_cases h0 : e0.1 = p
    · rw [if_pos h0] at heq
      rw [← heq]
      simp
    · rw [if_neg h0] at heq
      rw [← heq]
      exact h e0 he0
  · intro e he
    rcases List.mem_append.mp he with h1 | h2
    · exact h e h1
    · rw [List.mem_singleton] at h2
      rw [h2]
      simp

theorem processPhotos_valuesNonempty (m u : List Nat) (aid : String)
    (photos : List String) :
    ∀ st, valuesNonempty st.index →
      valuesNonempty (processPhotos m u aid photos st).index := by
  induction photos with
  | nil => intro st h; exact h
  | cons pid rest ih =>
    intro st h
    rw [processPhotos, List.foldl_cons, ← processPhotos]
    refine ih _ ?_
    rw [(processPid_fields m u aid st pid).2.2.2]
    split
    · exact indexAdd_valuesNonempty _ _ _ h
    · exact h

theorem processAlbums_valuesNonempty (m u : List Nat) (desc : String)
    (ajs : List AlbumJson) :
    ∀ st : PostState, valuesNonempty st.index →
      valuesNonempty (List.foldl (processAlbum m u desc) st ajs).index := by
  induction ajs with
  | nil => intro st h; exact h
  | cons aj rest ih =>
    intro st h
    rw [List.foldl_cons]
    exact ih _ (processPhotos_valuesNonempty m u aj.id aj.photos _ h)

theorem lookup_mem {κ α : Type} [BEq κ] [LawfulBEq κ] (l : List (κ × α)) (k : κ) (v : α)
    (h : List.lookup k l = some v) : (k, v) ∈ l := by
  induction l with
  | nil => cases h
  | cons e rest ih =>
    cases e with
    | mk a b =>
      by_cases hk : k = a
      · subst hk
        simp [List.lookup] at h
        rw [← h]
        exact List.mem_cons_self _ _
      · have hb : (k == a) = false := by simp [hk]
        simp [List.lookup, hb] at h
        exact List.mem_cons_of_mem _ (ih h)

/-- Claim C5: during album post-processing each photo id takes exactly one
of five fates, as computed by `classifyPid`: the sentinel "0" is dropped
silently; a non-numeric id is recorded in `wrong_items_in_albums`; a
numeric id of an unprocessed-video metadata entry is skipped silently; a
numeric id absent from `matched` (and not an unprocessed video) is
recorded in `missed_items_in_albums`; any other id becomes an album
member, and the loop state is updated accordingly. -/
theorem c5_album_pid_classification (m u : List Nat) (aid : String)
    (st : AlbumScan) (pid : String) (photos : List String) :
    ((processPid m u aid st pid).wrong
        = st.wrong ++ (if classifyPid m u pid = .wrong then [(aid, pid)] else [])
      ∧ (processPid m u aid st pid).missed
        = st.missed ++ (if classifyPid m u pid = .missing then [(aid, pyToNat pid)] else [])
      ∧ (processPid m u aid st pid).members
        = st.members ++ (if classifyPid m u pid = .member then [pyToNat pid] else [])
      ∧ (processPid m u aid st pid).index
        = (if classifyPid m u pid = .member then indexAdd st.index (pyToNat pid) aid
           else st.index))
    ∧ classifyPid m u "0" = .dropped
    ∧ (pid ≠ "0" → isDigits pid = false → classifyPid m u pid = .wrong)
    ∧ (pid ≠ "0" → isDigits pid = true → pyToNat pid ∈ u →
        classifyPid m u pid = .unprocessedVideo)
    ∧ (pid ≠ "0" → isDigits pid = true → pyToNat pid ∉ u → pyToNat pid ∉ m →
        classifyPid m u pid = .missing)
    ∧ (pid ≠ "0" → isDigits pid = true → pyToNat pid ∉ u → pyToNat pid ∈ m →
        classifyPid m u pid = .member)
    ∧ (processPhotos m u aid photos st).wrong
        = st.wrong ++ ((wrongPids m u photos).map fun q => (aid, q))
    ∧ (processPhotos m u aid photos st).missed
        = st.missed ++ ((missedPids m u photos).map fun n => (aid, n))
    ∧ (processPhotos m u aid photos st).members
        = st.members ++ memberPids m u photos := by
  refine ⟨processPid_fields m u aid st pid, by simp [classifyPid], ?_, ?_, ?_, ?_,
    processPhotos_wrong m u aid photos st, processPhotos_missed m u aid photos st,
    processPhotos_members m u aid photos st⟩
  · intro h0 hd
    unfold classifyPid
    rw [if_neg h0, hd]
    rfl
  · intro h0 hd hu
    unfold classifyPid
    rw [if_neg h0, hd, (contains_iff_mem_nat u (pyToNat pid)).mpr hu]
    rfl
  · intro h0 hd hu hm
    unfold classifyPid
    rw [if_neg h0, hd, (contains_false_iff_nmem_nat u (pyToNat pid)).mpr hu,
      (contains_false_iff_nmem_nat m (pyToNat pid)).mpr hm]
    rfl
  · intro h0 hd hu hm
    unfold classifyPid
    rw [if_neg h0, hd, (contains_false_iff_nmem_nat u (pyToNat pid)).mpr hu,
      (contains_iff_mem_nat m (pyToNat pid)).mpr hm]
    rfl

/-- Instantiation of claim C5 at a concrete missing id. -/
theorem c5_witness :
    classifyPid [5] [7] "8" = PidClass.missing
    ∧ (processPid [5] [7] "al" ⟨[], [], [], []⟩ "8").missed
        = [] ++ (if classifyPid [5] [7] "8" = PidClass.missing
            then [("al", pyToNat "8")] else []) := by
  have h := c5_album_pid_classification [5] [7] "al" ⟨[], [], [], []⟩ "8" []
  exact ⟨h.2.2.2.2.1 (by decide) (by decide) (by decide) (by decide), h.1.2.1⟩

/-- Albums manifest with a duplicate album id whose later (discarded)
entry has a different member photo. -/
def c6ajs : List AlbumJson :=
  [⟨"a", "t1", "url1", 0, 0, ["5"]⟩, ⟨"a", "t2", "url2", 1, 1, ["6"]⟩]

/-- Claim C6 counterexample: on a manifest with two album entries sharing
id "a" (the later one discarded), `item_to_albums_index` is not the
transpose of the retained albums: photo 6 of the discarded entry still
maps to "a" although the retained album does not contain it. -/
theorem c6_counterexample :
    ¬ (∀ q b, b ∈ lookupList (processAlbums [5, 6] [] "" c6ajs).index q ↔
        ∃ p ∈ (processAlbums [5, 6] [] "" c6ajs).albums,
          p.1 = b ∧ q ∈ p.2.items_ids) := by
  intro h
  have h6 := (h 6 "a").mp (by decide)
  exact absurd h6 (by decide)

/-- Claim C6 (amended): for a manifest whose album ids are all distinct,
`item_to_albums_index` is exactly the transpose of the retained albums
membership, and `items_without_albums` is exactly the matched ids that are
members of no retained album (equivalently, absent from the index); a
duplicate album id keeps this only for the index edges of the retained
entries, since the discarded later entry also contributes edges. -/
theorem c6_transpose_index (m u : List Nat) (desc : String) (ajs : List AlbumJson)
    (h : (ajs.map AlbumJson.id).Nodup) :
    ((processAlbums m u desc ajs).albums
        = ajs.map fun aj => (aj.id, mkAlbum m u desc aj))
    ∧ (∀ q b, b ∈ lookupList (processAlbums m u desc ajs).index q ↔
        ∃ p ∈ (processAlbums m u desc ajs).albums, p.1 = b ∧ q ∈ p.2.items_ids)
    ∧ (∀ k, k ∈ items_without_albums m (processAlbums m u desc ajs).index ↔
        (k ∈ m ∧ ∀ p ∈ (processAlbums m u desc ajs).albums, k ∉ p.2.items_ids)) := by
  have halb : (processAlbums m u desc ajs).albums
      = ajs.map fun aj => (aj.id, mkAlbum m u desc aj) := by
    rw [processAlbums,
      processAlbums_albums_aux m u desc ajs ⟨[], [], [], []⟩ h (fun aj _ => rfl)]
    simp
  have hmem : ∀ q b, b ∈ lookupList (processAlbums m u desc ajs).index q ↔
      ∃ aj ∈ ajs, b = aj.id ∧ q ∈ memberPids m u aj.photos := by
    intro q b
    rw [processAlbums, processAlbums_index_mem_all]
    have hempty : lookupList (⟨[], [], [], []⟩ : PostState).index q = [] := rfl
    simp [hempty]
  have htrans : ∀ q b, b ∈ lookupList (processAlbums m u desc ajs).index q ↔
      ∃ p ∈ (processAlbums m u desc ajs).albums, p.1 = b ∧ q ∈ p.2.items_ids := by
    intro q b
    rw [hmem q b, halb]
    simp only [List.mem_map]
    constructor
    · rintro ⟨aj, hajm, rfl, hq⟩
      exact ⟨(aj.id, mkAlbum m u desc aj), ⟨aj, hajm, rfl⟩, rfl, hq⟩
    · rintro ⟨p, ⟨aj, hajm, rfl⟩, hb, hq⟩
      exact ⟨aj, hajm, hb.symm, hq⟩
  refine ⟨halb, htrans, ?_⟩
  intro k
  rw [items_without_albums, List.mem_filter]
  have hnon : valuesNonempty (processAlbums m u desc ajs).index := by
    rw [processAlbums]
    exact processAlbums_valuesNonempty m u desc ajs ⟨[], [], [], []⟩
      (fun e he => absurd he (List.not_mem_nil e))
  constructor
  · rintro ⟨hkm, hknone⟩
    rw [Option.isNone_iff_eq_none] at hknone
    refine ⟨hkm, fun p hp hkp => ?_⟩
    have hb : p.1 ∈ lookupList (processAlbums m u desc ajs).index k :=
      (htrans k p.1).mpr ⟨p, hp, rfl, hkp⟩
    rw [lookupList, hknone] at hb
    simp at hb
  · rintro ⟨hkm, hall⟩
    refine ⟨hkm, ?_⟩
    rw [Option.isNone_iff_eq_none]
    cases hlk : List.lookup k (processAlbums m u desc ajs).index with
    | none => rfl
    | some v =>
      exfalso
      have hv : v ≠ [] := hnon (k, v) (lookup_mem _ _ _ hlk)
      obtain ⟨b, hb⟩ := List.exists_mem_of_ne_nil v hv
      have hbl : b ∈ lookupList (processAlbums m u desc ajs).index k := by
        rw [lookupList, hlk]
        exact hb
      obtain ⟨p, hp, _, hkp⟩ := (htrans k b).mp hbl
      exact hall p hp hkp

/-- Instantiation of the amended claim C6 at a concrete manifest. -/
theorem c6_witness :
    "a" ∈ lookupList (processAlbums [5] [] "" [⟨"a", "t", "url", 0, 0, ["5"]⟩]).index 5 := by
  have h := c6_transpose_index [5] [] "" [⟨"a", "t", "url", 0, 0, ["5"]⟩] (by decide)
  exact (h.2.1 5 "a").mpr (by decide)

/-! ## Uid allocation during build (source lines 199 and 215)

`items_ids = iter(range(0, 10**7))` with one `next(items_ids)` per media
match; an exhausted iterator raises `StopIteration` and aborts the build. -/

/-- One draw from the uid iterator: the yielded value and the advanced
cursor, or `none` when the range is exhausted. -/
def nextUid (cursor : Nat) : Option (Nat × Nat) :=
  if cursor < 10 ^ 7 then some (cursor, cursor + 1) else none

/-- Drawing `n` uids in sequence starting at `cursor`; `none` when the
iterator is exhausted before the n-th draw. -/
def allocUids : Nat → Nat → Option (List Nat)
  | 0, _ => some []
  | n + 1, cursor =>
    match nextUid cursor with
    | none => none
    | some (u, cursor2) => (allocUids n cursor2).map fun us => u :: us

theorem allocUids_closed (n : Nat) :
    ∀ cursor, cursor ≤ 10 ^ 7 → allocUids n cursor
      = if cursor + n ≤ 10 ^ 7 then some (List.range' cursor n) else none := by
  induction n with
  | zero =>
    intro cursor hcur
    rw [if_pos (by omega)]
    simp [allocUids, List.range']
  | succ n ih =>
    intro cursor hcur
    simp only [allocUids, nextUid]
    by_cases hc : cursor < 10 ^ 7
    · rw [if_pos hc]
      simp only
      rw [ih (cursor + 1) (by omega)]
      by_cases hle : cursor + 1 + n ≤ 10 ^ 7
      · rw [if_pos hle, if_pos (by omega)]
        simp [List.range'_succ]
      · rw [if_neg hle, if_neg (by omega)]
        rfl
    · rw [if_neg hc, if_neg (by omega)]

/-- Claim C9: uid allocation draws successive values from range(0, 10^7):
for fewer than 10^7 media matches every match receives a distinct uid
below 10^7, strictly increasing in allocation order, and the draw after
the 10^7-th one finds the iterator exhausted and aborts instead of
allocating. -/
theorem c9_uid_allocation (n : Nat) (hn : n < 10 ^ 7) :
    (∃ us, allocUids n 0 = some us ∧ us.Nodup ∧ us.Pairwise (· < ·)
      ∧ ∀ x ∈ us, x < 10 ^ 7)
    ∧ allocUids (10 ^ 7 + 1) 0 = none := by
  constructor
  · refine ⟨List.range n, ?_, List.nodup_range n, List.pairwise_lt_range n, ?_⟩
    · rw [allocUids_closed n 0 (by omega), if_pos (by omega), List.range_eq_range']
    · intro x hx
      have := List.mem_range.mp hx
      omega
  · rw [allocUids_closed (10 ^ 7 + 1) 0 (by omega), if_neg (by omega)]

/-- Instantiation of claim C9 at three draws. -/
theorem c9_witness :
    3 < 10 ^ 7
    ∧ ((∃ us, allocUids 3 0 = some us ∧ us.Nodup ∧ us.Pairwise (· < ·)
        ∧ ∀ x ∈ us, x < 10 ^ 7)
      ∧ allocUids (10 ^ 7 + 1) 0 = none) :=
  ⟨by norm_num, c9_uid_allocation 3 (by norm_num)⟩

/-! ## Upload pipeline (source lines 446-608 and 682-760)

The remote service is abstracted by an attempt oracle giving the outcome
of each retry-loop body execution; the sqlite tables are association
lists; the unbounded `while` loops take a fuel parameter, with a
dedicated out-of-fuel outcome meaning the loop was still running. -/

/-- Outcome of one retry-loop body execution against the remote service:
success carrying the created remote id, a retryable failure
(`RetryException`), or the rate-limit signal (HTTP 429, raised as
`GoogleAPILimitReached`). -/
inductive AttemptResult
  | success (gid : String)
  | retryErr
  | rateLimit
deriving DecidableEq

/-- One row of the upload state store. -/
structure Row where
  status : String
  googleId : Option String
deriving DecidableEq

/-- Key of the gphotos_items table: (item id, album id or null). -/
abbrev ItemKey := Nat × Option String

/-- The gphotos_items table. -/
abbrev IStore := List (ItemKey × Row)

/-- The gphotos_albums table keyed by album id; its autoincrement seq
order is carried separately as a list of album ids. -/
abbrev AStore := List (String × Row)

/-- SQL `update ... where <key>` on a keyed table. -/
def storeSet {κ : Type} [BEq κ] (db : List (κ × Row)) (k : κ) (r : Row) :
    List (κ × Row) :=
  db.map fun e => if e.1 == k then (e.1, r) else e

/-- State threaded through a retry loop: the table, the current remote
id, how many body executions have started, and the backoff sleeps
performed so far (in seconds). -/
structure LoopSt (κ : Type) where
  db : List (κ × Row)
  gid : Option String
  bodies : Nat
  waits : List Nat
deriving DecidableEq

/-- Result of a retry loop: normal exit, escalation of the rate-limit
signal, or out of fuel (meaning the loop was still running after the
given number of body executions). -/
inductive LoopOut (κ : Type)
  | finished (st : LoopSt κ)
  | rateLimited (st : LoopSt κ)
  | outOfFuel (st : LoopSt κ)
deriving DecidableEq

/-- The state carried by any loop outcome. -/
def LoopOut.state {κ : Type} : LoopOut κ → LoopSt κ
  | .finished s => s
  | .rateLimited s => s
  | .outOfFuel s => s

/-- The retry loop of `upload_item_to_google_photos` (source lines
508-606): `while retry < 5` catching only `RetryException`. A success
commits the `uploaded` row and keeps looping (the source has no break
after a successful body); a retryable error bumps `retry` and sleeps
`15 * retry` when another attempt remains; the rate-limit signal raises
past the loop at once. -/
def uploadLoop (att : Nat → AttemptResult) (key : ItemKey)
    (fuel retry : Nat) (st : LoopSt ItemKey) : LoopOut ItemKey :=
  if 5 ≤ retry then .finished st
  else
    match fuel with
    | 0 => .outOfFuel st
    | fuel + 1 =>
      match att st.bodies with
        | .success g =>
          uploadLoop att key fuel retry
            { db := storeSet st.db key ⟨"uploaded", some g⟩, gid := some g,
              bodies := st.bodies + 1, waits := st.waits }
        | .retryErr =>
          uploadLoop att key fuel (retry + 1)
            { db := st.db, gid := st.gid, bodies := st.bodies + 1,
              waits := st.waits ++ (if retry + 1 < 5 then [15 * (retry + 1)] else []) }
        | .rateLimit =>
          .rateLimited { db := st.db, gid := st.gid, bodies := st.bodies + 1,
                         waits := st.waits }

/-- Result of one `upload_item_to_google_photos` call. `noRow` marks a
missing row (where Python would crash on `item_row[0]`). -/
inductive UploadResult
  | noRow
  | done (db : IStore) (gid : Option String) (bodies : Nat) (waits : List Nat)
  | rateLimited (db : IStore) (bodies : Nat)
  | outOfFuel
deriving DecidableEq

/-- `upload_item_to_google_photos` (source lines 495-608): look up the
row; when its status is not `none`, return the stored remote id without
touching the network; otherwise run the retry loop. -/
def upload_item_to_google_photos (db : IStore) (itemId : Nat) (albumId : Option String)
    (att : Nat → AttemptResult) (fuel : Nat) : UploadResult :=
  match List.lookup (itemId, albumId) db with
  | none => .noRow
  | some row =>
    if row.status = "none" then
      match uploadLoop att (itemId, albumId) fuel 0 ⟨db, row.googleId, 0, []⟩ with
      | .finished st => .done st.db st.gid st.bodies st.waits
      | .rateLimited st => .rateLimited st.db st.bodies
      | .outOfFuel _ => .outOfFuel
    else .done db row.googleId 0 []

/-- The retry loop of `create_google_photos_album` (source lines
455-481): same shape as the item loop, except that the backoff sleep sits
at the top of the body (`if retry > 0: sleep(15 * retry)`) and a success
commits a `created` row - and likewise keeps looping. -/
def createAlbumLoop (att : Nat → AttemptResult) (albumId : String)
    (fuel retry : Nat) (st : LoopSt String) : LoopOut String :=
  if 5 ≤ retry then .finished st
  else
    match fuel with
    | 0 => .outOfFuel st
    | fuel + 1 =>
      let w := st.waits ++ (if 0 < retry then [15 * retry] else [])
      match att st.bodies with
        | .success g =>
          createAlbumLoop att albumId fuel retry
            { db := storeSet st.db albumId ⟨"created", some g⟩, gid := some g,
              bodies := st.bodies + 1, waits := w }
        | .retryErr =>
          createAlbumLoop att albumId fuel (retry + 1)
            { db := st.db, gid := st.gid, bodies := st.bodies + 1, waits := w }
        | .rateLimit =>
          .rateLimited { db := st.db, gid := st.gid, bodies := st.bodies + 1,
                         waits := w }

/-- Result of one `create_google_photos_album` call. -/
inductive AlbumResult
  | done (db : AStore) (gid : Option String) (bodies : Nat) (waits : List Nat)
  | rateLimited (db : AStore) (bodies : Nat)
  | outOfFuel
deriving DecidableEq

/-- `create_google_photos_album` (source lines 450-482): the row status
and remote id are passed in by the caller; when the status is not `none`
the passed remote id is returned untouched. -/
def create_google_photos_album (db : AStore) (albumId : String)
    (album_status : String) (album_google_id : Option String)
    (att : Nat → AttemptResult) (fuel : Nat) : AlbumResult :=
  if album_status = "none" then
    match createAlbumLoop att albumId fuel 0 ⟨db, album_google_id, 0, []⟩ with
    | .finished st => .done st.db st.gid st.bodies st.waits
    | .rateLimited st => .rateLimited st.db st.bodies
    | .outOfFuel _ => .outOfFuel
  else .done db album_google_id 0 []

/-- Sequential upload of a list of item ids against one album id or null
(the loops of source lines 733-738 and 744-747): a rate limit stops the
run at once, anything else proceeds to the next item; `none` models a
missing row or insufficient fuel. Returns the table, the rate-limit flag
and the visited item keys in visit order. -/
def runAlbumItems (attFor : ItemKey → Nat → AttemptResult) (fuel : Nat)
    (albumId : Option String) :
    IStore → List Nat → Option (IStore × Bool × List ItemKey)
  | idb, [] => some (idb, false, [])
  | idb, itemId :: rest =>
    match upload_item_to_google_photos idb itemId albumId (attFor (itemId, albumId)) fuel with
    | .done idb2 _ _ _ =>
      (runAlbumItems attFor fuel albumId idb2 rest).map fun r =>
        (r.1, r.2.1, (itemId, albumId) :: r.2.2)
    | .rateLimited idb2 _ => some (idb2, true, [(itemId, albumId)])
    | _ => none

/-- The album phase of `upload_to_google_photos` (source lines 714-739):
albums in db row order; a created album is followed by its member items;
an album skipped after the retry ceiling (remote id still null) skips its
items and moves on; a rate limit anywhere stops everything. -/
def runMigration (attA : String → Nat → AttemptResult)
    (attFor : ItemKey → Nat → AttemptResult) (fuel : Nat)
    (albums : List (String × Album)) :
    AStore → IStore → List String →
      Option (AStore × IStore × Bool × List String × List ItemKey)
  | adb, idb, [] => some (adb, idb, false, [], [])
  | adb, idb, albumId :: rest =>
    match List.lookup albumId adb, List.lookup albumId albums with
    | some row, some album =>
      match create_google_photos_album adb albumId row.status row.googleId
          (attA albumId) fuel with
      | .rateLimited adb2 _ => some (adb2, idb, true, [albumId], [])
      | .done adb2 gid2 _ _ =>
        match gid2 with
        | none =>
          (runMigration attA attFor fuel albums adb2 idb rest).map
            fun r => (r.1, r.2.1, r.2.2.1, albumId :: r.2.2.2.1, r.2.2.2.2)
        | some _ =>
          match runAlbumItems attFor fuel (some albumId) idb album.items_ids with
          | none => none
          | some (idb2, true, vis) => some (adb2, idb2, true, [albumId], vis)
          | some (idb2, false, vis) =>
            (runMigration attA attFor fuel albums adb2 idb2 rest).map
              fun r => (r.1, r.2.1, r.2.2.1, albumId :: r.2.2.2.1, vis ++ r.2.2.2.2)
      | .outOfFuel => none
    | _, _ => none

/-- `upload_to_google_photos` (source lines 682-760), reduced to its
store-and-network effects: the album phase followed by the items without
albums. -/
def upload_to_google_photos (attA : String → Nat → AttemptResult)
    (attFor : ItemKey → Nat → AttemptResult) (fuel : Nat)
    (albums : List (String × Album)) (adb : AStore) (idb : IStore)
    (albumOrder : List String) (iwa : List Nat) :
    Option (AStore × IStore × Bool × List String × List ItemKey) :=
  match runMigration attA attFor fuel albums adb idb albumOrder with
  | none => none
  | some (adb2, idb2, true, va, vi) => some (adb2, idb2, true, va, vi)
  | some (adb2, idb2, false, va, vi) =>
    match runAlbumItems attFor fuel none idb2 iwa with
    | none => none
    | some (idb3, rl, vis) => some (adb2, idb3, rl, va, vi ++ vis)

theorem storeSet_idem {κ : Type} [BEq κ] (db : List (κ × Row)) (k : κ) (r : Row) :
    storeSet (storeSet db k r) k r = storeSet db k r := by
  unfold storeSet
  rw [List.map_map]
  refine List.map_congr_left ?_
  intro e _
  by_cases h : (e.1 == k) = true
  · simp [Function.comp, h]
  · simp [Function.comp, h]

theorem uploadLoop_exit (att : Nat → AttemptResult) (key : ItemKey) (fuel retry : Nat)
    (st : LoopSt ItemKey) (h : 5 ≤ retry) :
    uploadLoop att key fuel retry st = .finished st := by
  rw [uploadLoop.eq_def, if_pos h]

theorem uploadLoop_zero (att : Nat → AttemptResult) (key : ItemKey) (retry : Nat)
    (st : LoopSt ItemKey) (h : retry < 5) :
    uploadLoop att key 0 retry st = .outOfFuel st := by
  rw [uploadLoop.eq_def, if_neg (show ¬ 5 ≤ retry from by omega)]

theorem uploadLoop_step (att : Nat → AttemptResult) (key : ItemKey) (fuel retry : Nat)
    (st : LoopSt ItemKey) (h : retry < 5) :
    uploadLoop att key (fuel + 1) retry st
      = match att st.bodies with
        | .success g =>
          uploadLoop att key fuel retry
            { db := storeSet st.db key ⟨"uploaded", some g⟩, gid := some g,
              bodies := st.bodies + 1, waits := st.waits }
        | .retryErr =>
          uploadLoop att key fuel (retry + 1)
            { db := st.db, gid := st.gid, bodies := st.bodies + 1,
              waits := st.waits ++ (if retry + 1 < 5 then [15 * (retry + 1)] else []) }
        | .rateLimit =>
          .rateLimited { db := st.db, gid := st.gid, bodies := st.bodies + 1,
                         waits := st.waits } := by
  rw [uploadLoop.eq_def, if_neg (show ¬ 5 ≤ retry from by omega)]

theorem createAlbumLoop_exit (att : Nat → AttemptResult) (aid : String)
    (fuel retry : Nat) (st : LoopSt String) (h : 5 ≤ retry) :
    createAlbumLoop att aid fuel retry st = .finished st := by
  rw [createAlbumLoop.eq_def, if_pos h]

theorem createAlbumLoop_zero (att : Nat → AttemptResult) (aid : String) (retry : Nat)
    (st : LoopSt String) (h : retry < 5) :
    createAlbumLoop att aid 0 retry st = .outOfFuel st := by
  rw [createAlbumLoop.eq_def, if_neg (show ¬ 5 ≤ retry from by omega)]

theorem createAlbumLoop_step (att : Nat → AttemptResult) (aid : String)
    (fuel retry : Nat) (st : LoopSt String) (h : retry < 5) :
    createAlbumLoop att aid (fuel + 1) retry st
      = match att st.bodies with
        | .success g =>
          createAlbumLoop att aid fuel retry
            { db := storeSet st.db aid ⟨"created", some g⟩, gid := some g,
              bodies := st.bodies + 1,
              waits := st.waits ++ (if 0 < retry then [15 * retry] else []) }
        | .retryErr =>
          createAlbumLoop att aid fuel (retry + 1)
            { db := st.db, gid := st.gid, bodies := st.bodies + 1,
              waits := st.waits ++ (if 0 < retry then [15 * retry] else []) }
        | .rateLimit =>
          .rateLimited { db := st.db, gid := st.gid, bodies := st.bodies + 1,
                         waits := st.waits ++ (if 0 < retry then [15 * retry] else []) } := by
  rw [createAlbumLoop.eq_def, if_neg (show ¬ 5 ≤ retry from by omega)]

theorem uploadLoop_success_forever (g : String) (key : ItemKey) :
    ∀ fuel db gid bodies waits,
      uploadLoop (fun _ => .success g) key (fuel + 1) 0 ⟨db, gid, bodies, waits⟩
        = .outOfFuel ⟨storeSet db key ⟨"uploaded", some g⟩, some g,
            bodies + fuel + 1, waits⟩ := by
  intro fuel
  induction fuel with
  | zero =>
    intro db gid bodies waits
    rw [uploadLoop_step _ _ _ _ _ (by omega)]
    show uploadLoop _ key 0 0
      ⟨storeSet db key ⟨"uploaded", some g⟩, some g, bodies + 1, waits⟩ = _
    rw [uploadLoop_zero _ _ _ _ (by omega)]
  | succ fuel ih =>
    intro db gid bodies waits
    rw [uploadLoop_step _ _ _ _ _ (by omega)]
    show uploadLoop _ key (fuel + 1) 0
      ⟨storeSet db key ⟨"uploaded", some g⟩, some g, bodies + 1, waits⟩ = _
    rw [ih (storeSet db key ⟨"uploaded", some g⟩) (some g) (bodies + 1) waits,
      storeSet_idem]
    have harith : bodies + 1 + fuel + 1 = bodies + (fuel + 1) + 1 := by omega
    rw [harith]

theorem createAlbumLoop_success_forever (g : String) (aid : String) :
    ∀ fuel adb gid bodies waits,
      createAlbumLoop (fun _ => .success g) aid (fuel + 1) 0 ⟨adb, gid, bodies, waits⟩
        = .outOfFuel ⟨storeSet adb aid ⟨"created", some g⟩, some g,
            bodies + fuel + 1, waits⟩ := by
  intro fuel
  induction fuel with
  | zero =>
    intro adb gid bodies waits
    rw [createAlbumLoop_step _ _ _ _ _ (by omega)]
    show createAlbumLoop _ aid 0 0
      ⟨storeSet adb aid ⟨"created", some g⟩, some g, bodies + 1,
        waits ++ (if 0 < 0 then [15 * 0] else [])⟩ = _
    rw [createAlbumLoop_zero _ _ _ _ (by omega), if_neg (by omega), List.append_nil]
  | succ fuel ih =>
    intro adb gid bodies waits
    rw [createAlbumLoop_step _ _ _ _ _ (by omega)]
    show createAlbumLoop _ aid (fuel + 1) 0
      ⟨storeSet adb aid ⟨"created", some g⟩, some g, bodies + 1,
        waits ++ (if 0 < 0 then [15 * 0] else [])⟩ = _
    rw [if_neg (by omega : ¬ (0 : Nat) < 0), List.append_nil,
      ih (storeSet adb aid ⟨"created", some g⟩) (some g) (bodies + 1) waits,
      storeSet_idem]
    have harith : bodies + 1 + fuel + 1 = bodies + (fuel + 1) + 1 := by omega
    rw [harith]

theorem uploadLoop_allErr (key : ItemKey) (db : IStore) (gid : Option String)
    (fuel : Nat) :
    uploadLoop (fun _ => .retryErr) key (fuel + 5) 0 ⟨db, gid, 0, []⟩
      = .finished ⟨db, gid, 5, [15, 30, 45, 60]⟩ := by
  show uploadLoop _ key ((fuel + 4) + 1) 0 ⟨db, gid, 0, []⟩ = _
  rw [uploadLoop_step _ _ _ _ _ (by omega)]
  show uploadLoop _ key ((fuel + 3) + 1) 1 ⟨db, gid, 1, [15]⟩ = _
  rw [uploadLoop_step _ _ _ _ _ (by omega)]
  show uploadLoop _ key ((fuel + 2) + 1) 2 ⟨db, gid, 2, [15, 30]⟩ = _
  rw [uploadLoop_step _ _ _ _ _ (by omega)]
  show uploadLoop _ key ((fuel + 1) + 1) 3 ⟨db, gid, 3, [15, 30, 45]⟩ = _
  rw [uploadLoop_step _ _ _ _ _ (by omega)]
  show uploadLoop _ key (fuel + 1) 4 ⟨db, gid, 4, [15, 30, 45, 60]⟩ = _
  rw [uploadLoop_step _ _ _ _ _ (by omega)]
  show uploadLoop _ key fuel 5 ⟨db, gid, 5, [15, 30, 45, 60]⟩ = _
  rw [uploadLoop_exit _ _ _ _ _ (by omega)]

/-- Claim C2 (code evaluation at the failing input): the ceiling half of
the claim holds - five straight retryable failures exhaust the loop after
exactly five attempts, with the backoff sleeps 15, 30, 45, 60 seconds,
the row untouched and a normal return (so the pipeline proceeds) - but
the success half fails: the loop body has no break after a successful
upload, so with every attempt succeeding the loop is still running after
any number of body executions (each one re-uploading the item) instead of
finishing with the item. The album-creation loop re-creates the album the
same way. -/
theorem c2_retry_loop (g : String) (key : ItemKey) (db : IStore) (gid : Option String)
    (fuel : Nat) (aid : String) (adb : AStore) :
    (uploadLoop (fun _ => .success g) key (fuel + 1) 0 ⟨db, gid, 0, []⟩
      = .outOfFuel ⟨storeSet db key ⟨"uploaded", some g⟩, some g, fuel + 1, []⟩)
    ∧ (uploadLoop (fun _ => .retryErr) key (fuel + 5) 0 ⟨db, gid, 0, []⟩
      = .finished ⟨db, gid, 5, [15, 30, 45, 60]⟩)
    ∧ (createAlbumLoop (fun _ => .success g) aid (fuel + 1) 0 ⟨adb, gid, 0, []⟩
      = .outOfFuel ⟨storeSet adb aid ⟨"created", some g⟩, some g, fuel + 1, []⟩) := by
  refine ⟨?_, uploadLoop_allErr key db gid fuel, ?_⟩
  · rw [uploadLoop_success_forever g key fuel db gid 0 []]
    have : (0 : Nat) + fuel + 1 = fuel + 1 := by omega
    rw [this]
  · rw [createAlbumLoop_success_forever g aid fuel adb gid 0 []]
    have : (0 : Nat) + fuel + 1 = fuel + 1 := by omega
    rw [this]

/-- Claim C3: for a row already recording status `uploaded`, the upload
step performs zero network body executions, sleeps never, leaves the
store unchanged and returns the remote id stored in that row. -/
theorem c3_uploaded_row_short_circuit (db : IStore) (itemId : Nat)
    (albumId : Option String) (att : Nat → AttemptResult) (fuel : Nat) (row : Row)
    (hrow : List.lookup (itemId, albumId) db = some row)
    (hst : row.status = "uploaded") :
    upload_item_to_google_photos db itemId albumId att fuel
      = .done db row.googleId 0 [] := by
  unfold upload_item_to_google_photos
  split
  · next hnone => rw [hrow] at hnone; cases hnone
  · next row2 hsome =>
    rw [hrow] at hsome
    injection hsome with he
    subst he
    have hne : ¬ row.status = "none" := by rw [hst]; decide
    rw [if_neg hne]

/-- Instantiation of claim C3 at a one-row store. -/
theorem c3_witness :
    upload_item_to_google_photos [((1, none), ⟨"uploaded", some "gid1"⟩)] 1 none
        (fun _ => .retryErr) 7
      = .done [((1, none), ⟨"uploaded", some "gid1"⟩)] (some "gid1") 0 [] :=
  c3_uploaded_row_short_circuit _ 1 none _ 7 ⟨"uploaded", some "gid1"⟩
    (by decide) rfl

theorem storeSet_get_ne {κ : Type} [BEq κ] [LawfulBEq κ] (db : List (κ × Row)) (k k2 : κ)
    (r : Row) (h : ¬ k2 = k) :
    List.lookup k2 (storeSet db k r) = List.lookup k2 db := by
  induction db with
  | nil => rfl
  | cons e rest ih =>
    cases e with
    | mk a b =>
      have hm : storeSet ((a, b) :: rest) k r
          = (if (a == k) = true then (a, r) else (a, b)) :: storeSet rest k r := rfl
      rw [hm]
      by_cases hak : (a == k) = true
      · rw [if_pos hak]
        have hk2a : (k2 == a) = false := by
          have haeq : a = k := eq_of_beq hak
          have hne : ¬ k2 = a := fun he => h (he.trans haeq)
          simp [hne]
        simp only [List.lookup, hk2a]
        exact ih
      · rw [if_neg hak]
        by_cases hk2 : (k2 == a) = true
        · simp only [List.lookup, hk2]
        · have hf : (k2 == a) = false := by
            cases hc : (k2 == a) with
            | false => rfl
            | true => exact absurd hc hk2
          simp only [List.lookup, hf]
          exact ih

theorem uploadLoop_frame (att : Nat → AttemptResult) (key : ItemKey) (k2 : ItemKey)
    (h : ¬ k2 = key) :
    ∀ fuel retry st,
      List.lookup k2 ((uploadLoop att key fuel retry st).state).db
        = List.lookup k2 st.db := by
  intro fuel
  induction fuel with
  | zero =>
    intro retry st
    by_cases hr : 5 ≤ retry
    · rw [uploadLoop_exit att key 0 retry st hr]
      rfl
    · rw [uploadLoop_zero att key retry st (by omega)]
      rfl
  | succ fuel ih =>
    intro retry st
    by_cases hr : 5 ≤ retry
    · rw [uploadLoop_exit att key (fuel + 1) retry st hr]
      rfl
    · rw [uploadLoop_step att key fuel retry st (by omega)]
      cases hatt : att st.bodies with
      | success g =>
        show List.lookup k2 ((uploadLoop att key fuel retry
          ⟨storeSet st.db key ⟨"uploaded", some g⟩, some g,
            st.bodies + 1, st.waits⟩).state).db = List.lookup k2 st.db
        rw [ih retry _]
        exact storeSet_get_ne st.db key k2 _ h
      | retryErr =>
        show List.lookup k2 ((uploadLoop att key fuel (retry + 1)
          ⟨st.db, st.gid, st.bodies + 1,
            st.waits ++ (if retry + 1 < 5 then [15 * (retry + 1)] else [])⟩).state).db
          = List.lookup k2 st.db
        rw [ih]
      | rateLimit =>
        rfl

theorem createAlbumLoop_frame (att : Nat → AttemptResult) (aid : String) (a2 : String)
    (h : ¬ a2 = aid) :
    ∀ fuel retry st,
      List.lookup a2 ((createAlbumLoop att aid fuel retry st).state).db
        = List.lookup a2 st.db := by
  intro fuel
  induction fuel with
  | zero =>
    intro retry st
    by_cases hr : 5 ≤ retry
    · rw [createAlbumLoop_exit att aid 0 retry st hr]
      rfl
    · rw [createAlbumLoop_zero att aid retry st (by omega)]
      rfl
  | succ fuel ih =>
    intro retry st
    by_cases hr : 5 ≤ retry
    · rw [createAlbumLoop_exit att aid (fuel + 1) retry st hr]
      rfl
    · rw [createAlbumLoop_step att aid fuel retry st (by omega)]
      cases hatt : att st.bodies with
      | success g =>
        show List.lookup a2 ((createAlbumLoop att aid fuel retry
          ⟨storeSet st.db aid ⟨"created", some g⟩, some g, st.bodies + 1,
            st.waits ++ (if 0 < retry then [15 * retry] else [])⟩).state).db
          = List.lookup a2 st.db
        rw [ih retry _]
        exact storeSet_get_ne st.db aid a2 _ h
      | retryErr =>
        show List.lookup a2 ((createAlbumLoop att aid fuel (retry + 1)
          ⟨st.db, st.gid, st.bodies + 1,
            st.waits ++ (if 0 < retry then [15 * retry] else [])⟩).state).db
          = List.lookup a2 st.db
        rw [ih]
      | rateLimit =>
        rfl

/-- The table carried by an upload result, when the call returned. -/
def UploadResult.store : UploadResult → Option IStore
  | .done db _ _ _ => some db
  | .rateLimited db _ => some db
  | _ => none

/-- The table carried by an album-creation result, when the call
returned. -/
def AlbumResult.store : AlbumResult → Option AStore
  | .done db _ _ _ => some db
  | .rateLimited db _ => some db
  | _ => none

theorem upload_item_store_frame (db : IStore) (itemId : Nat) (albumId : Option String)
    (att : Nat → AttemptResult) (fuel : Nat) (k2 : ItemKey)
    (h : ¬ k2 = (itemId, albumId)) (db2 : IStore)
    (hres : (upload_item_to_google_photos db itemId albumId att fuel).store = some db2) :
    List.lookup k2 db2 = List.lookup k2 db := by
  unfold upload_item_to_google_photos at hres
  split at hres
  · simp [UploadResult.store] at hres
  · next row hrow =>
    split at hres
    · split at hres
      · next stf hloop =>
        simp only [UploadResult.store, Option.some.injEq] at hres
        have hfr := uploadLoop_frame att (itemId, albumId) k2 h fuel 0 ⟨db, row.googleId, 0, []⟩
        rw [hloop] at hfr
        simp only [LoopOut.state] at hfr
        rw [← hres]
        exact hfr
      · next stf hloop =>
        simp only [UploadResult.store, Option.some.injEq] at hres
        have hfr := uploadLoop_frame att (itemId, albumId) k2 h fuel 0 ⟨db, row.googleId, 0, []⟩
        rw [hloop] at hfr
        simp only [LoopOut.state] at hfr
        rw [← hres]
        exact hfr
      · simp [UploadResult.store] at hres
    · simp only [UploadResult.store, Option.some.injEq] at hres
      rw [← hres]

theorem upload_item_intact (db : IStore) (itemId : Nat) (albumId : Option String)
    (att : Nat → AttemptResult) (fuel : Nat) (k2 : ItemKey) (r : Row)
    (hk2 : List.lookup k2 db = some r) (hst2 : r.status = "uploaded")
    (db2 : IStore)
    (hres : (upload_item_to_google_photos db itemId albumId att fuel).store = some db2) :
    List.lookup k2 db2 = some r := by
  by_cases hk : k2 = (itemId, albumId)
  · subst hk
    unfold upload_item_to_google_photos at hres
    split at hres
    · next hnone => rw [hk2] at hnone; cases hnone
    · next row hrow =>
      have hrr := hk2.symm.trans hrow
      injection hrr with he
      subst he
      rw [if_neg (show ¬ r.status = "none" by rw [hst2]; decide)] at hres
      simp only [UploadResult.store, Option.some.injEq] at hres
      rw [← hres]
      exact hk2
  · rw [upload_item_store_frame db itemId albumId att fuel k2 hk db2 hres]
    exact hk2

theorem create_album_store_frame (db : AStore) (albumId : String)
    (album_status : String) (album_google_id : Option String)
    (att : Nat → AttemptResult) (fuel : Nat) (a2 : String)
    (h : ¬ a2 = albumId) (db2 : AStore)
    (hres : (create_google_photos_album db albumId album_status album_google_id
        att fuel).store = some db2) :
    List.lookup a2 db2 = List.lookup a2 db := by
  unfold create_google_photos_album at hres
  split at hres
  · split at hres
    · next stf hloop =>
      simp only [AlbumResult.store, Option.some.injEq] at hres
      have hfr := createAlbumLoop_frame att albumId a2 h fuel 0 ⟨db, album_google_id, 0, []⟩
      rw [hloop] at hfr
      simp only [LoopOut.state] at hfr
      rw [← hres]
      exact hfr
    · next stf hloop =>
      simp only [AlbumResult.store, Option.some.injEq] at hres
      have hfr := createAlbumLoop_frame att albumId a2 h fuel 0 ⟨db, album_google_id, 0, []⟩
      rw [hloop] at hfr
      simp only [LoopOut.state] at hfr
      rw [← hres]
      exact hfr
    · simp [AlbumResult.store] at hres
  · simp only [AlbumResult.store, Option.some.injEq] at hres
    rw [← hres]

theorem runAlbumItems_spec (attFor : ItemKey → Nat → AttemptResult) (fuel : Nat)
    (albumId : Option String) :
    ∀ items idb idb2 rl vis,
      runAlbumItems attFor fuel albumId idb items = some (idb2, rl, vis) →
      ((∀ k2, k2 ∉ vis → List.lookup k2 idb2 = List.lookup k2 idb)
       ∧ (∀ k2 r, List.lookup k2 idb = some r → r.status = "uploaded" →
            List.lookup k2 idb2 = some r)
       ∧ (rl = false → vis = items.map fun i => (i, albumId))) := by
  intro items
  induction items with
  | nil =>
    intro idb idb2 rl vis h
    simp only [runAlbumItems, Option.some.injEq, Prod.mk.injEq] at h
    obtain ⟨rfl, rfl, rfl⟩ := h
    exact ⟨fun k2 _ => rfl, fun k2 r hr _ => hr, fun _ => rfl⟩
  | cons itemId rest ih =>
    intro idb idb2 rl vis h
    simp only [runAlbumItems] at h
    split at h
    · next dbd gidd bodiesd waitsd hup =>
      rw [Option.map_eq_some'] at h
      obtain ⟨r0, hr0, hf⟩ := h
      obtain ⟨idbr, rlr, visr⟩ := r0
      cases hf
      obtain ⟨hframe, hintact, hvis⟩ := ih dbd idbr rlr visr hr0
      have hupstore : (upload_item_to_google_photos idb itemId albumId
          (attFor (itemId, albumId)) fuel).store = some dbd := by
        rw [hup]
        rfl
      refine ⟨?_, ?_, ?_⟩
      · intro k2 hk2
        have hk2a : ¬ k2 = (itemId, albumId) := fun he =>
          hk2 (he ▸ List.mem_cons_self _ _)
        have hk2b : k2 ∉ visr := fun hm => hk2 (List.mem_cons_of_mem _ hm)
        rw [hframe k2 hk2b]
        exact upload_item_store_frame idb itemId albumId _ fuel k2 hk2a dbd hupstore
      · intro k2 r hkr hst2
        exact hintact k2 r
          (upload_item_intact idb itemId albumId _ fuel k2 r hkr hst2 dbd hupstore) hst2
      · intro hrl
        rw [List.map_cons, ← hvis hrl]
    · next dbd bodiesd hup =>
      simp only [Option.some.injEq, Prod.mk.injEq] at h
      obtain ⟨rfl, rfl, rfl⟩ := h
      have hupstore : (upload_item_to_google_photos idb itemId albumId
          (attFor (itemId, albumId)) fuel).store = some dbd := by
        rw [hup]
        rfl
      refine ⟨?_, ?_, fun hrl => absurd hrl (by decide)⟩
      · intro k2 hk2
        have hk2a : ¬ k2 = (itemId, albumId) := fun he =>
          hk2 (he ▸ List.mem_singleton.mpr rfl)
        exact upload_item_store_frame idb itemId albumId _ fuel k2 hk2a dbd hupstore
      · intro k2 r hkr hst2
        exact upload_item_intact idb itemId albumId _ fuel k2 r hkr hst2 dbd hupstore
    · cases h

theorem runMigration_spec (attA : String → Nat → AttemptResult)
    (attFor : ItemKey → Nat → AttemptResult) (fuel : Nat)
    (albums : List (String × Album)) :
    ∀ order adb idb adb2 idb2 rl va vi,
      runMigration attA attFor fuel albums adb idb order
          = some (adb2, idb2, rl, va, vi) →
      ((∃ rest, order = va ++ rest ∧ (rl = false → rest = []))
       ∧ (∀ a2, a2 ∉ va → List.lookup a2 adb2 = List.lookup a2 adb)
       ∧ (∀ k2, k2 ∉ vi → List.lookup k2 idb2 = List.lookup k2 idb)
       ∧ (∀ k2 r, List.lookup k2 idb = some r → r.status = "uploaded" →
            List.lookup k2 idb2 = some r)) := by
  intro order
  induction order with
  | nil =>
    intro adb idb adb2 idb2 rl va vi h
    simp only [runMigration, Option.some.injEq, Prod.mk.injEq] at h
    obtain ⟨rfl, rfl, rfl, rfl, rfl⟩ := h
    exact ⟨⟨[], rfl, fun _ => rfl⟩, fun a2 _ => rfl, fun k2 _ => rfl,
      fun k2 r hr _ => hr⟩
  | cons albumId rest ih =>
    intro adb idb adb2 idb2 rl va vi h
    simp only [runMigration] at h
    split at h
    · next row album hrowa halbum =>
      split at h
      · next adbd bodiesd hcre =>
        simp only [Option.some.injEq, Prod.mk.injEq] at h
        obtain ⟨rfl, rfl, rfl, rfl, rfl⟩ := h
        have hcstore : (create_google_photos_album adb albumId row.status row.googleId
            (attA albumId) fuel).store = some adbd := by
          rw [hcre]
          rfl
        refine ⟨⟨rest, rfl, fun hrl => absurd hrl (by decide)⟩, ?_, fun k2 _ => rfl,
          fun k2 r hr _ => hr⟩
        intro a2 ha2
        have ha2a : ¬ a2 = albumId := fun he => ha2 (he ▸ List.mem_singleton.mpr rfl)
        exact create_album_store_frame adb albumId _ _ _ fuel a2 ha2a adbd hcstore
      · next adbd gidd bodiesd waitsd hcre =>
        have hcstore : (create_google_photos_album adb albumId row.status row.googleId
            (attA albumId) fuel).store = some adbd := by
          rw [hcre]
          rfl
        split at h
        · -- gidd = none: album skipped, items untouched, recurse
          rw [Option.map_eq_some'] at h
          obtain ⟨r0, hr0, hf⟩ := h
          obtain ⟨adbr, idbr, rlr, var, vir⟩ := r0
          cases hf
          obtain ⟨⟨rest2, hrest2, hrest2e⟩, hafr, hifr, hint⟩ :=
            ih adbd idb adbr idbr rlr var vir hr0
          refine ⟨⟨rest2, by rw [List.cons_append, ← hrest2], hrest2e⟩, ?_, hifr, hint⟩
          intro a2 ha2
          have ha2a : ¬ a2 = albumId := fun he => ha2 (he ▸ List.mem_cons_self _ _)
          have ha2b : a2 ∉ var := fun hm => ha2 (List.mem_cons_of_mem _ hm)
          rw [hafr a2 ha2b]
          exact create_album_store_frame adb albumId _ _ _ fuel a2 ha2a adbd hcstore
        · -- gidd = some: run the album items
          split at h
          · cases h
          · next idbd vis hitems =>
            simp only [Option.some.injEq, Prod.mk.injEq] at h
            obtain ⟨rfl, rfl, rfl, rfl, rfl⟩ := h
            obtain ⟨hifr, hint, _⟩ :=
              runAlbumItems_spec attFor fuel (some albumId) album.items_ids idb idbd
                true vis hitems
            refine ⟨⟨rest, rfl, fun hrl => absurd hrl (by decide)⟩, ?_, hifr, hint⟩
            intro a2 ha2
            have ha2a : ¬ a2 = albumId := fun he => ha2 (he ▸ List.mem_singleton.mpr rfl)
            exact create_album_store_frame adb albumId _ _ _ fuel a2 ha2a adbd hcstore
          · next idbd vis hitems =>
            rw [Option.map_eq_some'] at h
            obtain ⟨r0, hr0, hf⟩ := h
            obtain ⟨adbr, idbr, rlr, var, vir⟩ := r0
            cases hf
            obtain ⟨hifr0, hint0, _⟩ :=
              runAlbumItems_spec attFor fuel (some albumId) album.items_ids idb idbd
                false vis hitems
            obtain ⟨⟨rest2, hrest2, hrest2e⟩, hafr, hifr, hint⟩ :=
              ih adbd idbd adbr idbr rlr var vir hr0
            refine ⟨⟨rest2, by rw [List.cons_append, ← hrest2], hrest2e⟩, ?_, ?_, ?_⟩
            · intro a2 ha2
              have ha2a : ¬ a2 = albumId := fun he => ha2 (he ▸ List.mem_cons_self _ _)
              have ha2b : a2 ∉ var := fun hm => ha2 (List.mem_cons_of_mem _ hm)
              rw [hafr a2 ha2b]
              exact create_album_store_frame adb albumId _ _ _ fuel a2 ha2a adbd hcstore
            · intro k2 hk2
              have hk2a : k2 ∉ vis := fun hm => hk2 (List.mem_append_left _ hm)
              have hk2b : k2 ∉ vir := fun hm => hk2 (List.mem_append_right _ hm)
              rw [hifr k2 hk2b]
              exact hifr0 k2 hk2a
            · intro k2 r hkr hst2
              exact hint k2 r (hint0 k2 r hkr hst2) hst2
      · cases h
    · cases h

/-- Claim C4: a rate-limit response is never retried locally: in either
retry loop it aborts the body at once - no retry increment, no extra
backoff sleep, no store write - and escalates past the loop; and a
pipeline run that ended rate-limited attempted only a prefix of the album
order, left every item row outside the visited set untouched (so the
remaining rows keep their pending state), and preserved every row already
committed as uploaded. -/
theorem c4_rate_limit_propagation :
    (∀ (att : Nat → AttemptResult) (key : ItemKey) (fuel retry : Nat)
        (st : LoopSt ItemKey), retry < 5 → att st.bodies = .rateLimit →
      uploadLoop att key (fuel + 1) retry st
        = .rateLimited ⟨st.db, st.gid, st.bodies + 1, st.waits⟩)
    ∧ (∀ (att : Nat → AttemptResult) (aid : String) (fuel retry : Nat)
        (st : LoopSt String), retry < 5 → att st.bodies = .rateLimit →
      createAlbumLoop att aid (fuel + 1) retry st
        = .rateLimited ⟨st.db, st.gid, st.bodies + 1,
            st.waits ++ (if 0 < retry then [15 * retry] else [])⟩)
    ∧ (∀ (attA : String → Nat → AttemptResult) (attFor : ItemKey → Nat → AttemptResult)
        (fuel : Nat) (albums : List (String × Album)) (adb : AStore) (idb : IStore)
        (albumOrder : List String) (iwa : List Nat)
        (adb2 : AStore) (idb2 : IStore) (va : List String) (vi : List ItemKey),
      upload_to_google_photos attA attFor fuel albums adb idb albumOrder iwa
          = some (adb2, idb2, true, va, vi) →
      ((∃ rest, albumOrder = va ++ rest)
       ∧ (∀ a2, a2 ∉ va → List.lookup a2 adb2 = List.lookup a2 adb)
       ∧ (∀ k2, k2 ∉ vi → List.lookup k2 idb2 = List.lookup k2 idb)
       ∧ (∀ k2 r, List.lookup k2 idb = some r → r.status = "uploaded" →
            List.lookup k2 idb2 = some r))) := by
  refine ⟨?_, ?_, ?_⟩
  · intro att key fuel retry st h hratt
    rw [uploadLoop_step att key fuel retry st h, hratt]
  · intro att aid fuel retry st h hratt
    rw [createAlbumLoop_step att aid fuel retry st h, hratt]
  · intro attA attFor fuel albums adb idb albumOrder iwa adb2 idb2 va vi h
    unfold upload_to_google_photos at h
    split at h
    · cases h
    · next adbr idbr var vir hmig =>
      simp only [Option.some.injEq, Prod.mk.injEq, true_and] at h
      obtain ⟨rfl, rfl, rfl, rfl⟩ := h
      obtain ⟨⟨rest, hrest, _⟩, hafr, hifr, hint⟩ :=
        runMigration_spec attA attFor fuel albums albumOrder adb idb adbr idbr
          true var vir hmig
      exact ⟨⟨rest, hrest⟩, hafr, hifr, hint⟩
    · next adbr idbr var vir hmig =>
      split at h
      · cases h
      · next idb3 rl3 vis hitems =>
        simp only [Option.some.injEq, Prod.mk.injEq] at h
        obtain ⟨rfl, rfl, hrl3, rfl, rfl⟩ := h
        obtain ⟨⟨rest, hrest, hreste⟩, hafr, hifr, hint⟩ :=
          runMigration_spec attA attFor fuel albums albumOrder adb idb adbr idbr
            false var vir hmig
        obtain ⟨hifr0, hint0, _⟩ :=
          runAlbumItems_spec attFor fuel none iwa idbr idb3 rl3 vis hitems
        refine ⟨⟨rest, hrest⟩, hafr, ?_, ?_⟩
        · intro k2 hk2
          have hk2a : k2 ∉ vir := fun hm => hk2 (List.mem_append_left _ hm)
          have hk2b : k2 ∉ vis := fun hm => hk2 (List.mem_append_right _ hm)
          rw [hifr0 k2 hk2b]
          exact hifr k2 hk2a
        · intro k2 r hkr hst2
          exact hint0 k2 r (hint k2 r hkr hst2) hst2

/-- A store with one uploaded row and two pending rows. -/
def c4idb : IStore :=
  [((1, none), ⟨"uploaded", some "g1"⟩), ((2, none), ⟨"none", none⟩),
   ((3, none), ⟨"none", none⟩)]

/-- An attempt oracle that rate-limits item 2 and fails the rest. -/
def c4att : ItemKey → Nat → AttemptResult :=
  fun k _ => if k = (2, none) then .rateLimit else .retryErr

/-- Instantiation of claim C4 at a three-item run that is rate-limited on
the second item: the already uploaded first row survives intact. -/
theorem c4_witness :
    List.lookup ((1 : Nat), (none : Option String)) c4idb
      = some ⟨"uploaded", some "g1"⟩ := by
  have h := (c4_rate_limit_propagation).2.2 (fun _ _ => .retryErr) c4att 1 [] [] c4idb
    [] [1, 2, 3] [] c4idb [] [(1, none), (2, none)] rfl
  exact h.2.2.2 (1, none) ⟨"uploaded", some "g1"⟩ (by decide) rfl

/-! ## Migration processing order (source lines 407-419 and 714-749) -/

/-- The key of `sorted(albums.items(), key=lambda x: x[1].created)`. -/
def byCreated (a b : String × Album) : Prop := a.2.created ≤ b.2.created

instance : DecidableRel byCreated :=
  fun a b => inferInstanceAs (Decidable (a.2.created ≤ b.2.created))

/-- `init_albums_to_upload_to_google_photos` (source lines 407-419):
albums sorted ascending by creation timestamp; each one inserts a db row
when absent. The rows keep autoincrement seq order, modelled by list
order; the upload loop then reads them back in that order. -/
def init_albums_to_upload_to_google_photos (albums : List (String × Album))
    (dbRows : List String) : List String :=
  (albums.insertionSort byCreated).foldl
    (fun rows p => if rows.contains p.1 then rows else rows ++ [p.1]) dbRows

/-- The (album id, item id) visit order of the migration run (source
lines 714-749): albums in db row order, each with its recorded member
items in order, then the items without albums. -/
def uploadVisitOrder (albumOrder : List String) (albums : List (String × Album))
    (iwa : List Nat) : List (Option String × Nat) :=
  (albumOrder.flatMap fun aid =>
    (((List.lookup aid albums).map Album.items_ids).getD []).map fun i => (some aid, i))
  ++ iwa.map fun i => (none, i)

theorem contains_iff_mem {κ : Type} [BEq κ] [LawfulBEq κ] (l : List κ) (a : κ) :
    l.contains a = true ↔ a ∈ l := by
  rw [List.contains]
  exact List.elem_iff

theorem lookup_of_mem_nodup {κ α : Type} [BEq κ] [LawfulBEq κ] (l : List (κ × α))
    (hnd : (l.map Prod.fst).Nodup) (k : κ) (v : α) (hm : (k, v) ∈ l) :
    List.lookup k l = some v := by
  induction l with
  | nil => cases hm
  | cons e rest ih =>
    rw [List.map_cons] at hnd
    rcases List.mem_cons.mp hm with heq | hm2
    · rw [← heq]
      simp [List.lookup]
    · cases e with
      | mk a b =>
        have hka : ¬ k = a := by
          intro he
          apply (List.nodup_cons.mp hnd).1
          rw [← he]
          exact @List.mem_map_of_mem _ _ rest (k, v) Prod.fst hm2
        have hb : (k == a) = false := by simp [hka]
        simp only [List.lookup, hb]
        exact ih (List.nodup_cons.mp hnd).2 hm2

theorem initRows_append (l : List (String × Album)) :
    ∀ rows, (l.map Prod.fst).Nodup →
      (∀ p ∈ l, p.1 ∉ rows) →
      l.foldl (fun rows p => if rows.contains p.1 then rows else rows ++ [p.1]) rows
        = rows ++ l.map Prod.fst := by
  induction l with
  | nil =>
    intro rows _ _
    simp
  | cons p rest ih =>
    intro rows hnd hfr
    rw [List.map_cons] at hnd
    rw [List.foldl_cons]
    have hc : ¬ rows.contains p.1 = true := fun hc =>
      hfr p (List.mem_cons_self p rest) ((contains_iff_mem rows p.1).mp hc)
    rw [if_neg hc, ih (rows ++ [p.1]) (List.nodup_cons.mp hnd).2 ?_]
    · rw [List.map_cons, List.append_assoc]
      rfl
    · intro p2 hp2 hmem
      rcases List.mem_append.mp hmem with h1 | h2
      · exact hfr p2 (List.mem_cons_of_mem _ hp2) h1
      · rw [List.mem_singleton] at h2
        exact (List.nodup_cons.mp hnd).1 (h2 ▸ List.mem_map_of_mem Prod.fst hp2)

theorem initRows_noop (l : List (String × Album)) :
    ∀ rows, (∀ p ∈ l, p.1 ∈ rows) →
      l.foldl (fun rows p => if rows.contains p.1 then rows else rows ++ [p.1]) rows
        = rows := by
  induction l with
  | nil =>
    intro rows _
    rfl
  | cons p rest ih =>
    intro rows hall
    rw [List.foldl_cons,
      if_pos ((contains_iff_mem rows p.1).mpr (hall p (List.mem_cons_self p rest)))]
    exact ih rows fun p2 hp2 => hall p2 (List.mem_cons_of_mem _ hp2)

theorem visitOrder_flatMap (albums : List (String × Album))
    (hnd : (albums.map Prod.fst).Nodup) :
    ∀ l : List (String × Album), (∀ p ∈ l, p ∈ albums) →
      (l.map Prod.fst).flatMap (fun aid =>
          (((List.lookup aid albums).map Album.items_ids).getD []).map
            fun i => (some aid, i))
        = l.flatMap fun p => p.2.items_ids.map fun i => (some p.1, i) := by
  intro l
  induction l with
  | nil =>
    intro _
    rfl
  | cons p rest ih =>
    intro hsub
    rw [List.map_cons, List.flatMap_cons, List.flatMap_cons,
      lookup_of_mem_nodup albums hnd p.1 p.2
        (by rw [Prod.mk.eta]; exact hsub p (List.mem_cons_self p rest)),
      ih fun p2 hp2 => hsub p2 (List.mem_cons_of_mem _ hp2)]
    rfl

/-- Claim C8: on a fresh database the albums are enqueued - and hence
visited - in ascending creation-timestamp order; within each album the
items are visited in the recorded membership order; the matched items
belonging to no album are visited after all albums, in index order; and
re-running the enqueue step over an already-populated database keeps the
stored order. -/
theorem c8_processing_order (albums : List (String × Album)) (iwa : List Nat)
    (hnd : (albums.map Prod.fst).Nodup) :
    (init_albums_to_upload_to_google_photos albums []
      = (albums.insertionSort byCreated).map Prod.fst)
    ∧ List.Sorted byCreated (albums.insertionSort byCreated)
    ∧ (albums.insertionSort byCreated).Perm albums
    ∧ uploadVisitOrder (init_albums_to_upload_to_google_photos albums []) albums iwa
      = (((albums.insertionSort byCreated).flatMap
          fun p => p.2.items_ids.map fun i => (some p.1, i))
        ++ (iwa.map fun i => (none, i)))
    ∧ (∀ dbRows, (∀ a ∈ albums.map Prod.fst, a ∈ dbRows) →
        init_albums_to_upload_to_google_photos albums dbRows = dbRows)
    ∧ (∀ (attFor : ItemKey → Nat → AttemptResult) (fuel : Nat)
        (albumId : Option String) (items : List Nat) (idb idb2 : IStore)
        (vis : List ItemKey),
        runAlbumItems attFor fuel albumId idb items = some (idb2, false, vis) →
        vis = items.map fun i => (i, albumId)) := by
  have hperm : (albums.insertionSort byCreated).Perm albums :=
    List.perm_insertionSort byCreated albums
  have hndsorted : ((albums.insertionSort byCreated).map Prod.fst).Nodup :=
    ((hperm.map Prod.fst).symm).nodup hnd
  have hinit : init_albums_to_upload_to_google_photos albums []
      = (albums.insertionSort byCreated).map Prod.fst := by
    unfold init_albums_to_upload_to_google_photos
    rw [initRows_append (albums.insertionSort byCreated) [] hndsorted
      (fun p _ hmem => absurd hmem (List.not_mem_nil _))]
    rfl
  refine ⟨hinit, ?_, hperm, ?_, ?_, ?_⟩
  · letI : IsTotal (String × Album) byCreated := ⟨fun a b => Int.le_total _ _⟩
    letI : IsTrans (String × Album) byCreated := ⟨fun a b c hab hbc => le_trans hab hbc⟩
    exact List.sorted_insertionSort byCreated albums
  · rw [hinit]
    unfold uploadVisitOrder
    rw [visitOrder_flatMap albums hnd (albums.insertionSort byCreated)
      (fun p hp => hperm.mem_iff.mp hp)]
  · intro dbRows hall
    unfold init_albums_to_upload_to_google_photos
    exact initRows_noop _ dbRows fun p hp =>
      hall p.1 (List.mem_map_of_mem Prod.fst (hperm.mem_iff.mp hp))
  · intro attFor fuel albumId items idb idb2 vis h
    exact (runAlbumItems_spec attFor fuel albumId items idb idb2 false vis h).2.2 rfl

/-- Two albums listed out of creation order. -/
def c8albums : List (String × Album) :=
  [("b", ⟨"b", "tb", "", "urlb", 5, 5, [10]⟩),
   ("a", ⟨"a", "ta", "", "urla", 3, 3, [20]⟩)]

/-- Instantiation of claim C8: the enqueue step reorders the two albums
by creation timestamp. -/
theorem c8_witness :
    init_albums_to_upload_to_google_photos c8albums [] = ["a", "b"] := by
  have h := c8_processing_order c8albums [9] (by decide)
  rw [h.1]
  decide

end Flickr
